import Mathlib

/-!
Verification development for the google-drive-copier repository.

Shallow embedding of the core components:
* the URL reference parser (`src/web/src/lib/utils` `parseGoogleDriveUrl`
  together with the regexes in `src/web/src/config/constants.ts`),
* the Google Drive service wrappers (`google-drive.service.ts`), modelled over
  an abstract `DriveApi` record standing for the remote `googleapis` client,
* the batch copy engine (`copy.service.ts` `batchCopy`),
* the job registry (`job.service.ts`).

Machine arithmetic: the JS code uses only small non-negative integers here
(indices, percentages, timestamps); they are modelled as `Nat`/`Int`.
Fallible JS code (`throw`/`catch`) is modelled with `Except String`, the
string being the thrown error's `message`.
-/

/-- Item status, from `CopyItemStatus` in the repository's type definitions. -/
inductive CopyItemStatus
  | pending
  | processing
  | success
  | error
deriving DecidableEq, Repr

/-- Job status, from `JobStatus` in the repository's type definitions. -/
inductive JobStatus
  | processing
  | complete
  | error
deriving DecidableEq, Repr

/-- Resource kind, from `DriveResourceType`. -/
inductive DriveResourceType
  | file
  | folder
deriving DecidableEq, Repr

/-- Result of parsing a Drive URL, from `ParsedDriveUrl`. -/
structure ParsedDriveUrl where
  id : String
  type : DriveResourceType
deriving DecidableEq, Repr

/-! ## URL parser

`URL_PATTERNS` from `constants.ts`:

* `DRIVE_FILE`      : `drive\.google\.com\/file\/d\/([a-zA-Z0-9_-]+)`
* `DRIVE_FILE_OPEN` : `drive\.google\.com\/open\?id=([a-zA-Z0-9_-]+)`
* `DRIVE_FILE_UC`   : `drive\.google\.com\/uc\?.*id=([a-zA-Z0-9_-]+)`
* `DRIVE_FOLDER`    : `drive\.google\.com\/drive\/folders\/([a-zA-Z0-9_-]+)`
* `DRIVE_ID_ONLY`   : `^[a-zA-Z0-9_-]{25,}$`

The first four are unanchored searches (JS `String.match` finds the leftmost
start position at which the whole pattern matches); the capture group is the
greedy run of id characters. In `DRIVE_FILE_UC` the `.*` is greedy, matches
anything except line terminators, and backtracks, so the capture comes from
the last `id=` of the line that is followed by at least one id character.
-/

/-- Character class `[a-zA-Z0-9_-]` (`a`-`z`, `A`-`Z`, `0`-`9`, `_`, `-`,
by code point). -/
def isDriveIdChar (c : Char) : Bool :=
  ((0x61 ≤ c.toNat && c.toNat ≤ 0x7a) || (0x41 ≤ c.toNat && c.toNat ≤ 0x5a)
    || (0x30 ≤ c.toNat && c.toNat ≤ 0x39) || c.toNat = 0x5f || c.toNat = 0x2d)

/-- Whitespace stripped by JS `String.prototype.trim` (tab, LF, VT, FF, CR,
space, NBSP, BOM, the Unicode space separators, and the line separators). -/
def isJsSpace (c : Char) : Bool :=
  (c.toNat = 0x20 || c.toNat = 0x9 || c.toNat = 0xa || c.toNat = 0xd
    || c.toNat = 0xb || c.toNat = 0xc
    || c.toNat = 0xa0 || c.toNat = 0xfeff || c.toNat = 0x1680
    || (0x2000 ≤ c.toNat && c.toNat ≤ 0x200a)
    || c.toNat = 0x2028 || c.toNat = 0x2029
    || c.toNat = 0x202f || c.toNat = 0x205f || c.toNat = 0x3000)

/-- JS regex line terminators, which `.` does not match. -/
def isLineTerm (c : Char) : Bool :=
  (c.toNat = 0xa || c.toNat = 0xd || c.toNat = 0x2028 || c.toNat = 0x2029)

/-- `trim` of JS, on character lists. -/
def jsTrim (l : List Char) : List Char :=
  ((l.dropWhile isJsSpace).reverse.dropWhile isJsSpace).reverse

/-- Drops a literal from the front of a list, or fails. -/
def dropLit : List Char → List Char → Option (List Char)
  | [], s => some s
  | _ :: _, [] => none
  | c :: cs, d :: ds => if c = d then dropLit cs ds else none

/-- Searches for the leftmost position where the literal occurs followed by at
least one id character, and returns the greedy capture, mirroring how the JS
engine matches `lit([a-zA-Z0-9_-]+)` unanchored. -/
def matchLitId (lit : List Char) : List Char → Option (List Char)
  | [] => none
  | c :: rest =>
    match dropLit lit (c :: rest) with
    | some suf =>
      let cap := suf.takeWhile isDriveIdChar
      if cap.isEmpty then matchLitId lit rest else some cap
    | none => matchLitId lit rest

/-- Greedy-backtracking `.*id=([a-zA-Z0-9_-]+)`: the capture at the last `id=`
of the list that is followed by at least one id character. -/
def lastIdCapture : List Char → Option (List Char)
  | [] => none
  | c :: rest =>
    match lastIdCapture rest with
    | some cap => some cap
    | none =>
      match dropLit ['i', 'd', '='] (c :: rest) with
      | some suf =>
        let cap := suf.takeWhile isDriveIdChar
        if cap.isEmpty then none else some cap
      | none => none

def fileLit : List Char := "drive.google.com/file/d/".data
def openLit : List Char := "drive.google.com/open?id=".data
def ucLit : List Char := "drive.google.com/uc?".data
def folderLit : List Char := "drive.google.com/drive/folders/".data

/-- The `DRIVE_FILE_UC` pattern: leftmost `drive.google.com/uc?` whose line
still contains an `id=` followed by an id character. -/
def matchUc : List Char → Option (List Char)
  | [] => none
  | c :: rest =>
    match dropLit ucLit (c :: rest) with
    | some suf =>
      match lastIdCapture (suf.takeWhile (fun ch => !isLineTerm ch)) with
      | some cap => some cap
      | none => matchUc rest
    | none => matchUc rest

/-- The anchored `DRIVE_ID_ONLY` pattern `^[a-zA-Z0-9_-]{25,}$`. -/
def isDriveIdOnly (s : List Char) : Bool :=
  25 ≤ s.length && s.all isDriveIdChar

/-- Pattern dispatch over the trimmed input, in the priority order of the
`patterns` array of `parseGoogleDriveUrl`, then the direct-id check. -/
def parseTrimmed (t : List Char) : Option ParsedDriveUrl :=
  match matchLitId fileLit t with
  | some cap => some ⟨String.mk cap, DriveResourceType.file⟩
  | none =>
    match matchLitId openLit t with
    | some cap => some ⟨String.mk cap, DriveResourceType.file⟩
    | none =>
      match matchUc t with
      | some cap => some ⟨String.mk cap, DriveResourceType.file⟩
      | none =>
        match matchLitId folderLit t with
        | some cap => some ⟨String.mk cap, DriveResourceType.folder⟩
        | none =>
          if isDriveIdOnly t then some ⟨String.mk t, DriveResourceType.file⟩
          else none

/-- `parseGoogleDriveUrl` on character lists: the `!url` falsy check (empty
string), then `trim`, then pattern dispatch. -/
def parseList (l : List Char) : Option ParsedDriveUrl :=
  match l with
  | [] => none
  | _ :: _ => parseTrimmed (jsTrim l)

/-- `parseGoogleDriveUrl` from `src/unnamed/part_003`. -/
def parseGoogleDriveUrl (url : String) : Option ParsedDriveUrl :=
  parseList url.data

/-! ## Google Drive service (`src/unnamed/part_001`)

The `googleapis` client is abstracted as a `DriveApi` record; each field
stands for one remote call. An `Except.error` result stands for the remote
call throwing; its string is the raw error message (never one of the
service's own `AppError` messages). Progress callbacks are modelled by
returning the list of emitted progress values alongside the result. -/

/-- Metadata as selected by `getFileMetadata` (`fields: id, name, mimeType,
size, parents`). -/
structure DriveFileMetadata where
  id : String
  name : String
  mimeType : String
  size : Option String := none
  parents : Option (List String) := none
deriving DecidableEq, Repr

/-- Response data of `drive.files.copy` (`fields: id, name, size`); the code
asserts `id` non-null (`response.data.id!`) and defaults the others. -/
structure CopyResp where
  id : String
  name : Option String := none
  size : Option String := none
deriving DecidableEq, Repr

/-- Abstract remote Drive client. `createF name parent` models
`drive.files.create` and returns the created id (or `none` for a response
with no id); `permit fileId role type` models `drive.permissions.create`;
`copyF src name parent` models `drive.files.copy`; `listChildren folderId`
models the `drive.files.list` query over a parent folder. -/
structure DriveApi where
  getMeta : String → Except String DriveFileMetadata
  createF : String → Option String → Except String (Option String)
  permit : String → String → String → Except String Unit
  copyF : String → String → String → Except String CopyResp
  listChildren : String → Except String (List DriveFileMetadata)

/-- `MIME_TYPES.FOLDER` from `constants.ts`. -/
def MIME_FOLDER : String := "application/vnd.google-apps.folder"

/-- `GoogleDriveService.getFileMetadata`: any remote failure is rethrown as
`AppError('Failed to get file metadata')`. -/
def getFileMetadata (api : DriveApi) (fileId : String) :
    Except String DriveFileMetadata :=
  match api.getMeta fileId with
  | .ok m => .ok m
  | .error _ => .error "Failed to get file metadata"

/-- `GoogleDriveService.createFolder`: create, then make the folder public;
raw remote failures become `AppError('Failed to create folder')`, while the
missing-id `AppError` is rethrown unchanged. -/
def createFolder (api : DriveApi) (name : String) (parentId : Option String) :
    Except String String :=
  match api.createF name parentId with
  | .error _ => .error "Failed to create folder"
  | .ok none => .error "Failed to create folder: No ID returned"
  | .ok (some folderId) =>
    match api.permit folderId "reader" "anyone" with
    | .error _ => .error "Failed to create folder"
    | .ok _ => .ok folderId

/-- `GoogleDriveService.listFilesInFolder`. -/
def listFilesInFolder (api : DriveApi) (folderId : String) :
    Except String (List DriveFileMetadata) :=
  match api.listChildren folderId with
  | .ok fs => .ok fs
  | .error _ => .error "Failed to list files in folder"

/-- Return value of `copyFile`. -/
structure FileCopyResult where
  id : String
  name : String
  size : String
deriving DecidableEq, Repr

/-- `GoogleDriveService.copyFile`. The second component is the list of
progress values handed to `onProgress` (10 after metadata, 90 after the copy,
100 after the permission); the `catch` replaces every failure with
`AppError('Failed to copy file')`, keeping progress already emitted. -/
def copyFile (api : DriveApi) (sourceFileId targetFolderId : String)
    (newName : Option String) : Except String FileCopyResult × List Nat :=
  match getFileMetadata api sourceFileId with
  | .error _ => (.error "Failed to copy file", [])
  | .ok sourceFile =>
    let fileName := newName.getD sourceFile.name
    match api.copyF sourceFileId fileName targetFolderId with
    | .error _ => (.error "Failed to copy file", [10])
    | .ok resp =>
      match api.permit resp.id "reader" "anyone" with
      | .error _ => (.error "Failed to copy file", [10, 90])
      | .ok _ =>
        (.ok ⟨resp.id, resp.name.getD fileName, resp.size.getD "0"⟩,
         [10, 90, 100])

/-- Return value of `copyFolder`. -/
structure FolderCopyResult where
  id : String
  name : String
  filesCopied : Nat
deriving DecidableEq, Repr

/-- The `for` loop inside `copyFolder`: emits one progress triple per direct
child, dispatches on mime type, aborts on the first failing child, and counts
`filesCopied` (one per direct child, whatever its kind). `recurse` is the
recursive subfolder copy — `copyFolder` at one fuel less; it is a parameter
only so that the two definitions recurse structurally. -/
def copyChildren (api : DriveApi)
    (recurse : String → String → Option String →
      Except String FolderCopyResult × List (Nat × Nat × String))
    (newFolderId : String) (total : Nat) :
    List DriveFileMetadata → Nat → Except String Nat × List (Nat × Nat × String)
  | [], _ => (.ok 0, [])
  | file :: rest, i =>
    let ev : Nat × Nat × String := (i + 1, total, file.name)
    let childRes : Except String Unit :=
      if file.mimeType = MIME_FOLDER then
        match (recurse file.id newFolderId (some file.name)).1 with
        | .ok _ => .ok ()
        | .error e => .error e
      else
        match (copyFile api file.id newFolderId none).1 with
        | .ok _ => .ok ()
        | .error e => .error e
    match childRes with
    | .error e => (.error e, [ev])
    | .ok _ =>
      match copyChildren api recurse newFolderId total rest (i + 1) with
      | (.error e, evs) => (.error e, ev :: evs)
      | (.ok k, evs) => (.ok (k + 1), ev :: evs)

/-- `GoogleDriveService.copyFolder`. The second component is the list of
`(current, total, fileName)` triples handed to `onProgress`. The `fuel`
argument is a modelling artifact bounding the recursion depth (the JS code
recurses on the folder hierarchy, assumed to be a finite tree); with fuel
exhausted the model fails like the catch-all `AppError('Failed to copy
folder')`. The `catch` rethrows `AppError`s (all failures of the nested
service calls) unchanged. -/
def copyFolder (api : DriveApi) :
    Nat → String → String → Option String →
    Except String FolderCopyResult × List (Nat × Nat × String)
  | 0, _, _, _ => (.error "Failed to copy folder", [])
  | fuel + 1, sourceFolderId, targetParentId, newName =>
    match getFileMetadata api sourceFolderId with
    | .error e => (.error e, [])
    | .ok sourceFolder =>
      let folderName := newName.getD sourceFolder.name
      match createFolder api folderName (some targetParentId) with
      | .error e => (.error e, [])
      | .ok newFolderId =>
        match listFilesInFolder api sourceFolderId with
        | .error e => (.error e, [])
        | .ok files =>
          match copyChildren api (copyFolder api fuel) newFolderId
              files.length files 0 with
          | (.error e, evs) => (.error e, evs)
          | (.ok filesCopied, evs) =>
            (.ok ⟨newFolderId, folderName, filesCopied⟩, evs)

/-! ## Batch copy engine (`copy.service.ts`) -/

/-- `COPY_CONFIG` from `constants.ts`. -/
def DEFAULT_CONCURRENCY : Int := 3
def MIN_CONCURRENCY : Int := 1
def MAX_CONCURRENCY : Int := 10

/-- The concurrency validation in `batchCopy`:
`Math.max(MIN_CONCURRENCY, Math.min(concurrency, MAX_CONCURRENCY))`. -/
def safeConcurrency (concurrency : Int) : Int :=
  max MIN_CONCURRENCY (min concurrency MAX_CONCURRENCY)

/-- Number of workers started by `batchCopy`:
`Math.min(safeConcurrency, items.length)`. -/
def workerCount (concurrency : Int) (numItems : Nat) : Int :=
  min (safeConcurrency concurrency) (numItems : Int)

/-- One entry of the `BatchCopyResult[]` array. -/
structure BatchCopyResult where
  url : String
  success : Bool
  id : Option String := none
  name : Option String := none
  error : Option String := none
deriving DecidableEq, Repr

/-- One invocation of the engine's `onProgress` callback:
`(index, status, progress, message)`. -/
structure Ev where
  index : Nat
  status : CopyItemStatus
  progress : Int
  message : String
deriving DecidableEq, Repr

/-- `Math.floor((current / total) * 100)` for the folder progress callback
(the JS double arithmetic agrees with natural division at the values the loop
produces, `1 ≤ current ≤ total`, up to at most one unit of rounding; only
monotonicity and the 0–100 range matter here). -/
def folderProgress (current total : Nat) : Int :=
  ((100 * current) / total : Nat)

/-- Message of a folder progress event:
`Copying: ${fileName} (${current}/${total})`. -/
def folderEvMsg (current total : Nat) (fileName : String) : String :=
  "Copying: " ++ fileName ++ " (" ++ toString current ++ "/" ++
    toString total ++ ")"

/-- The body of one iteration of `processItem` in `batchCopy`: parse check,
`Starting...` event, dispatch on file/folder, terminal event; the `catch`
turns any failure into a per-index error result and an Error event carrying
the failure's message. Returns the `results[index]` entry and the events
emitted for this index, in order. -/
def processItem (api : DriveApi) (fuel : Nat) (targetFolderId : String)
    (index : Nat) (url : String) : BatchCopyResult × List Ev :=
  match parseGoogleDriveUrl url with
  | none =>
    ({ url := url, success := false, error := some "Invalid Google Drive URL" },
     [⟨index, .error, 0, "Error: Invalid Google Drive URL"⟩])
  | some parsed =>
    let start : Ev := ⟨index, .processing, 0, "Starting..."⟩
    match parsed.type with
    | .file =>
      match copyFile api parsed.id targetFolderId none with
      | (.ok r, ps) =>
        ({ url := url, success := true, id := some r.id, name := some r.name },
         start :: (ps.map (fun p => ⟨index, .processing, (p : Int), "Copying file..."⟩)
           ++ [⟨index, .success, 100, "Copied: " ++ r.name⟩]))
      | (.error msg, ps) =>
        ({ url := url, success := false, error := some msg },
         start :: (ps.map (fun p => ⟨index, .processing, (p : Int), "Copying file..."⟩)
           ++ [⟨index, .error, 0, "Error: " ++ msg⟩]))
    | .folder =>
      match copyFolder api fuel parsed.id targetFolderId none with
      | (.ok r, evs) =>
        ({ url := url, success := true, id := some r.id, name := some r.name },
         start :: (evs.map (fun ev =>
             ⟨index, .processing, folderProgress ev.1 ev.2.1,
              folderEvMsg ev.1 ev.2.1 ev.2.2⟩)
           ++ [⟨index, .success, 100,
                "Copied folder: " ++ r.name ++ " (" ++
                  toString r.filesCopied ++ " files)"⟩]))
      | (.error msg, evs) =>
        ({ url := url, success := false, error := some msg },
         start :: (evs.map (fun ev =>
             ⟨index, .processing, folderProgress ev.1 ev.2.1,
              folderEvMsg ev.1 ev.2.1 ev.2.2⟩)
           ++ [⟨index, .error, 0, "Error: " ++ msg⟩]))

/-- The events `batchCopy` emits for one index. -/
def itemEvents (api : DriveApi) (fuel : Nat) (targetFolderId : String)
    (index : Nat) (url : String) : List Ev :=
  (processItem api fuel targetFolderId index url).2

/-- The `while (currentIndex < items.length)` worker loop of `batchCopy`, over
the (index, url) pairs a worker claims from the shared cursor: each claimed
item is processed inside the per-item try/catch, so the loop continues past
failing items. Returns the results and events in claim order. -/
def workerLoop (api : DriveApi) (fuel : Nat) (targetFolderId : String) :
    List (Nat × String) → List BatchCopyResult × List Ev
  | [] => ([], [])
  | (i, url) :: rest =>
    let step := processItem api fuel targetFolderId i url
    let further := workerLoop api fuel targetFolderId rest
    (step.1 :: further.1, step.2 ++ further.2)

/-! ## Job registry (`job.service.ts`) -/

/-- One element of `job.items`, from `CopyItem` (the `result`/`error` fields
are never written through the progress path modelled here). -/
structure CopyItem where
  index : Nat
  url : String
  status : CopyItemStatus
  progress : Int
  message : String
deriving DecidableEq, Repr

/-- A job record; `createdAt` is the epoch-milliseconds timestamp the stored
ISO string denotes. -/
structure CopyJob where
  id : String
  status : JobStatus
  totalItems : Nat
  completedItems : Nat
  items : List CopyItem
  targetFolderId : String
  createdAt : Int
deriving DecidableEq, Repr

/-- Terminal check `status === 'success' || status === 'error'`. -/
def isTerminalItem : CopyItemStatus → Bool
  | .success => true
  | .error => true
  | _ => false

/-- The recount in `updateJobItem`:
`job.items.filter(s => success || error).length`. -/
def countCompleted (items : List CopyItem) : Nat :=
  (items.filter (fun it => isTerminalItem it.status)).length

/-- The job object built by `createJob`. -/
def mkJob (jobId : String) (urls : List String) (folderId : String)
    (createdAt : Int) : CopyJob :=
  { id := jobId, status := .processing, totalItems := urls.length,
    completedItems := 0,
    items := urls.enum.map (fun p => ⟨p.1, p.2, .pending, 0, "Waiting..."⟩),
    targetFolderId := folderId, createdAt := createdAt }

/-- The in-record part of `JobService.updateJobItem`: guard on the item's
existence, `Object.assign` of `{status, progress, message}`, recount on a
terminal status, and promotion to Complete when the count reaches
`totalItems`. -/
def applyItemUpdate (job : CopyJob) (e : Ev) : CopyJob :=
  if h : e.index < job.items.length then
    let updated :=
      { job.items[e.index] with
        status := e.status, progress := e.progress, message := e.message }
    let items' := job.items.set e.index updated
    if isTerminalItem e.status then
      let completed := countCompleted items'
      let status' := if completed = job.totalItems then JobStatus.complete else job.status
      { job with items := items', completedItems := completed, status := status' }
    else
      { job with items := items' }
  else job

/-- Folding a sequence of progress callbacks into the job record. -/
def applyTrace (job : CopyJob) (tr : List Ev) : CopyJob :=
  tr.foldl applyItemUpdate job

/-- The tail of `processJob`: after `batchCopy` resolves, the job (still
present) is marked complete. -/
def finishJob (job : CopyJob) : CopyJob :=
  { job with status := .complete }

/-- The in-memory `jobs` map, as an association list with unique keys. -/
abbrev JobMap := List (String × CopyJob)

/-- `JobService.getJob` (record lookup; the snapshot is the record itself). -/
def getJob (m : JobMap) (jobId : String) : Option CopyJob :=
  List.lookup jobId m

/-- `JobService.deleteJob`'s effect on the map (`jobs.delete`). -/
def deleteJob (m : JobMap) (jobId : String) : JobMap :=
  m.filter (fun p => !(p.1 == jobId))

/-- `JobService.updateJobItem` at the registry level: silently returns when
the job is gone or the item index does not exist. -/
def updateJobItem (m : JobMap) (jobId : String) (itemIndex : Nat)
    (st : CopyItemStatus) (pr : Int) (msg : String) : JobMap :=
  match List.lookup jobId m with
  | none => m
  | some job =>
    if itemIndex < job.items.length then
      m.map (fun p =>
        if p.1 == jobId then (p.1, applyItemUpdate p.2 ⟨itemIndex, st, pr, msg⟩)
        else p)
    else m

/-- `JobService.clearOldJobs`: walks the map, removing Complete jobs whose
age `now - createdAt` exceeds `maxAgeMs`, and counts the removals. -/
def clearOldJobs (now maxAgeMs : Int) : JobMap → JobMap × Nat
  | [] => ([], 0)
  | (jobId, job) :: rest =>
    let further := clearOldJobs now maxAgeMs rest
    if job.status = JobStatus.complete && now - job.createdAt > maxAgeMs then
      (further.1, further.2 + 1)
    else
      ((jobId, job) :: further.1, further.2)

/-- `JobService.createJob` up to the point where it returns: resolve or create
the destination folder (synchronously, before the job exists), then register
the job record. The background `processJob` run is modelled separately by
`applyTrace`/`finishJob`. A failure of the folder resolution propagates out
of `createJob` before any job is registered. -/
def createJob (api : DriveApi) (jobId : String) (urls : List String)
    (targetFolderId targetFolderName : Option String)
    (defaultFolderName : String) (createdAt : Int) (m : JobMap) :
    Except String (String × JobMap) :=
  match targetFolderId with
  | some fid => .ok (jobId, m ++ [(jobId, mkJob jobId urls fid createdAt)])
  | none =>
    match createFolder api (targetFolderName.getD defaultFolderName) none with
    | .error e => .error e
    | .ok fid => .ok (jobId, m ++ [(jobId, mkJob jobId urls fid createdAt)])

/-- Request body of `POST /api/copy`. -/
structure PostBody where
  urls : List String
  targetFolderId : Option String := none
  targetFolderName : Option String := none
  concurrency : Option Int := none
deriving Repr

/-- The `POST /api/copy` handler (`route.ts`): empty-list validation (400),
concurrency clamping, `createJob`, and the catch-all 500 response carrying
the failure's message. Returns `((httpStatus, jobId?, error?), map)`. -/
def postCopy (api : DriveApi) (jobId : String) (defaultFolderName : String)
    (createdAt : Int) (body : PostBody) (m : JobMap) :
    (Nat × Option String × Option String) × JobMap :=
  if body.urls.isEmpty then
    ((400, none, some "Please enter at least one Google Drive link"), m)
  else
    let conc := safeConcurrency (body.concurrency.getD DEFAULT_CONCURRENCY)
    match conc, createJob api jobId body.urls body.targetFolderId
        body.targetFolderName defaultFolderName createdAt m with
    | _, .error e => ((500, none, some e), m)
    | _, .ok (jid, m') => ((200, some jid, none), m')

/-! ## Concurrency clamping (claim C3) -/

/-- Claim C3: for every integer concurrency input, the effective concurrency
used by the batch copy engine is the input clamped into [1, 10] (0 yields 1,
999 yields 10, in-range inputs pass through, out-of-range inputs are clamped
rather than rejected), and the number of workers started equals
min(clamped concurrency, number of items). -/
theorem concurrency_clamped :
    ∀ (c : Int) (n : Nat),
      MIN_CONCURRENCY ≤ safeConcurrency c
      ∧ safeConcurrency c ≤ MAX_CONCURRENCY
      ∧ (1 ≤ c → c ≤ 10 → safeConcurrency c = c)
      ∧ (c < 1 → safeConcurrency c = 1)
      ∧ (10 < c → safeConcurrency c = 10)
      ∧ safeConcurrency 0 = 1
      ∧ safeConcurrency 999 = 10
      ∧ workerCount c n = min (safeConcurrency c) (n : Int) := by
  intro c n
  unfold workerCount safeConcurrency MIN_CONCURRENCY MAX_CONCURRENCY
  refine ⟨?_, ?_, ?_, ?_, ?_, ?_, ?_, rfl⟩ <;> omega

/-- Concrete instances of `concurrency_clamped`. -/
theorem concurrency_clamped_witness :
    safeConcurrency 5 = 5 ∧ safeConcurrency 0 = 1 ∧ safeConcurrency 999 = 10 :=
  ⟨(concurrency_clamped 5 0).2.2.1 (by decide) (by decide),
   (concurrency_clamped 0 0).2.2.2.2.2.1,
   (concurrency_clamped 999 0).2.2.2.2.2.2.1⟩

/-! ## Public permissions on created resources (claim C9) -/

/-- Claim C9: a successful folder creation and a successful single-file copy
both entail that the permission grant with role `reader` and type `anyone` on
the newly created resource was issued and succeeded (the service fails
otherwise), so no successfully copied file or created folder is left
private. -/
theorem success_implies_public_permission :
    ∀ (api : DriveApi),
      (∀ name parent fid, createFolder api name parent = .ok fid →
        api.permit fid "reader" "anyone" = .ok ())
      ∧ (∀ src tgt nn r ps, copyFile api src tgt nn = (.ok r, ps) →
        api.permit r.id "reader" "anyone" = .ok ()) := by
  intro api
  constructor
  · intro name parent fid h
    unfold createFolder at h
    split at h
    · exact absurd h (by simp)
    · exact absurd h (by simp)
    · rename_i folderId heq
      split at h
      · exact absurd h (by simp)
      · rename_i u hp
        simp only [Except.ok.injEq] at h
        subst h
        cases u
        exact hp
  · intro src tgt nn r ps h
    unfold copyFile at h
    split at h
    · exact absurd h (by simp)
    · rename_i meta hm
      simp only at h
      split at h
      · exact absurd h (by simp)
      · rename_i resp hc
        split at h
        · exact absurd h (by simp)
        · rename_i u hp
          simp only [Prod.mk.injEq, Except.ok.injEq] at h
          cases u
          rw [← h.1]
          exact hp

/-- A remote client on which every call succeeds, for concrete runs. -/
def apiAllOk : DriveApi :=
  { getMeta := fun fid => .ok ⟨fid, "name-" ++ fid, "text/plain", none, none⟩,
    createF := fun _ _ => .ok (some "newFolder1"),
    permit := fun _ _ _ => .ok (),
    copyF := fun src _ _ => .ok ⟨"copy-" ++ src, none, none⟩,
    listChildren := fun _ => .ok [] }

/-- Concrete instance of `success_implies_public_permission`. -/
theorem success_implies_public_permission_witness :
    apiAllOk.permit "newFolder1" "reader" "anyone" = .ok ()
    ∧ apiAllOk.permit "copy-src9" "reader" "anyone" = .ok () :=
  ⟨(success_implies_public_permission apiAllOk).1 "Dest" none "newFolder1" rfl,
   (success_implies_public_permission apiAllOk).2 "src9" "tgt" none
      ⟨"copy-src9", "name-src9", "0"⟩ [10, 90, 100] rfl⟩

/-! ## Callbacks after deletion (claim C8) -/

/-- A deleted key is no longer found. -/
theorem lookup_deleteJob (m : JobMap) (jobId : String) :
    List.lookup jobId (deleteJob m jobId) = none := by
  induction m with
  | nil => rfl
  | cons p rest ih =>
    obtain ⟨k, v⟩ := p
    unfold deleteJob
    unfold deleteJob at ih
    rw [List.filter_cons]
    by_cases h : k = jobId
    · simp only [h, beq_self_eq_true, Bool.not_true, Bool.false_eq_true,
        if_false]
      exact ih
    · have hk : (k == jobId) = false := beq_eq_false_iff_ne.mpr h
      have hjk : (jobId == k) = false := beq_eq_false_iff_ne.mpr (Ne.symm h)
      simp only [hk, Bool.not_false, if_true]
      simp only [List.lookup, hjk]
      exact ih

/-- Claim C8: a progress callback addressed to a jobId whose record is gone
(in particular, one deleted from the registry), or to an item index that does
not exist in the job, is a silent no-op on the registry: the job map is
returned unchanged and no failure occurs. -/
theorem callback_after_delete_noop :
    ∀ (m : JobMap) (jobId : String) (itemIndex : Nat) (st : CopyItemStatus)
      (pr : Int) (msg : String),
      (List.lookup jobId m = none →
        updateJobItem m jobId itemIndex st pr msg = m)
      ∧ updateJobItem (deleteJob m jobId) jobId itemIndex st pr msg
          = deleteJob m jobId
      ∧ (∀ job, List.lookup jobId m = some job → job.items.length ≤ itemIndex →
          updateJobItem m jobId itemIndex st pr msg = m) := by
  intro m jobId itemIndex st pr msg
  refine ⟨?_, ?_, ?_⟩
  · intro h
    unfold updateJobItem
    rw [h]
  · unfold updateJobItem
    rw [lookup_deleteJob]
  · intro job hl hle
    unfold updateJobItem
    rw [hl]
    simp [Nat.not_lt.mpr hle]

/-- A small concrete registry for witnesses. -/
def jobEx : CopyJob := mkJob "j" ["u"] "t" 0

def mapEx : JobMap := [("j", jobEx)]

/-- Concrete instances of `callback_after_delete_noop`. -/
theorem callback_after_delete_noop_witness :
    updateJobItem (deleteJob mapEx "j") "j" 0 .success 100 "done" = deleteJob mapEx "j"
    ∧ updateJobItem mapEx "nope" 0 .success 100 "done" = mapEx
    ∧ updateJobItem mapEx "j" 5 .success 100 "done" = mapEx :=
  ⟨(callback_after_delete_noop mapEx "j" 0 .success 100 "done").2.1,
   (callback_after_delete_noop mapEx "nope" 0 .success 100 "done").1 (by decide),
   (callback_after_delete_noop mapEx "j" 5 .success 100 "done").2.2 jobEx (by decide) (by decide)⟩

/-! ## Garbage collection (claim C5)

`clearOldJobs` tests `job.status === 'complete'` only: an old job in the
Error terminal state is never removed, contradicting the claim that all
terminal jobs older than `maxAge` are collected. -/

/-- An Error-state job created at time 0, for the counterexample. -/
def oldErrorJob : CopyJob :=
  { id := "j", status := .error, totalItems := 1, completedItems := 1,
    items := [⟨0, "u", .error, 0, "Error: x"⟩], targetFolderId := "t",
    createdAt := 0 }

/-- Claim C5 counterexample: at time 1000000 with maxAge 10, a job in the
terminal Error state aged far beyond maxAge is left in the map and the
removal count is 0, where the claim requires it to be removed (map `[]`,
count 1). -/
theorem gc_skips_old_error_job :
    oldErrorJob.status = JobStatus.error
    ∧ 1000000 - oldErrorJob.createdAt > 10
    ∧ clearOldJobs 1000000 10 [("j", oldErrorJob)] = ([("j", oldErrorJob)], 0)
    ∧ clearOldJobs 1000000 10 [("j", oldErrorJob)] ≠ ([], 1) := by
  refine ⟨rfl, by decide, by decide, by decide⟩

/-- Claim C5 as amended: `clearOldJobs` removes exactly the jobs whose status
is Complete and whose age since creation exceeds `maxAgeMs`, returns the
number removed, and never removes a job whose status is Processing or Error,
regardless of age. -/
theorem gc_removes_only_old_complete_jobs :
    ∀ (now maxAgeMs : Int) (m : JobMap),
      (clearOldJobs now maxAgeMs m).1
        = m.filter (fun p =>
            !(p.2.status = JobStatus.complete && now - p.2.createdAt > maxAgeMs))
      ∧ (clearOldJobs now maxAgeMs m).2 + (clearOldJobs now maxAgeMs m).1.length
          = m.length
      ∧ (∀ p ∈ m, p.2.status ≠ JobStatus.complete →
          p ∈ (clearOldJobs now maxAgeMs m).1) := by
  intro now maxAgeMs m
  induction m with
  | nil => exact ⟨rfl, rfl, by intro p hp; cases hp⟩
  | cons q rest ih =>
    obtain ⟨k, v⟩ := q
    obtain ⟨ih1, ih2, ih3⟩ := ih
    by_cases h : v.status = JobStatus.complete ∧ now - v.createdAt > maxAgeMs
    · have hb : (decide (v.status = JobStatus.complete)
          && decide (now - v.createdAt > maxAgeMs)) = true := by
        simp [h.1, h.2]
      refine ⟨?_, ?_, ?_⟩
      · show (clearOldJobs now maxAgeMs ((k, v) :: rest)).1 = _
        unfold clearOldJobs
        rw [List.filter_cons]
        simp [hb, ih1]
      · show (clearOldJobs now maxAgeMs ((k, v) :: rest)).2 + _ = _
        unfold clearOldJobs
        simp only [hb, if_true, List.length_cons]
        omega
      · intro p hp hps
        rcases List.mem_cons.mp hp with rfl | hmem
        · exact absurd h.1 hps
        · have := ih3 p hmem hps
          unfold clearOldJobs
          simp only [hb, if_true]
          exact this
    · have hb : (decide (v.status = JobStatus.complete)
          && decide (now - v.createdAt > maxAgeMs)) = false := by
        rcases Decidable.not_and_iff_or_not.mp h with h1 | h1 <;> simp [h1]
      refine ⟨?_, ?_, ?_⟩
      · show (clearOldJobs now maxAgeMs ((k, v) :: rest)).1 = _
        unfold clearOldJobs
        rw [List.filter_cons]
        simp [hb, ih1]
      · show (clearOldJobs now maxAgeMs ((k, v) :: rest)).2 + _ = _
        unfold clearOldJobs
        simp only [hb, Bool.false_eq_true, if_false, List.length_cons]
        omega
      · intro p hp hps
        rcases List.mem_cons.mp hp with rfl | hmem
        · unfold clearOldJobs
          simp only [hb, Bool.false_eq_true, if_false]
          exact List.mem_cons_self _ _
        · have := ih3 p hmem hps
          unfold clearOldJobs
          simp only [hb, Bool.false_eq_true, if_false]
          exact List.mem_cons_of_mem _ this

/-- A Processing-state job created at time 0. -/
def processingJob : CopyJob :=
  { id := "b", status := .processing, totalItems := 1, completedItems := 0,
    items := [⟨0, "u", .pending, 0, "Waiting..."⟩], targetFolderId := "t",
    createdAt := 0 }

/-- Concrete instance of `gc_removes_only_old_complete_jobs`: an arbitrarily
old Processing job survives collection. -/
theorem gc_removes_only_old_complete_jobs_witness :
    ("b", processingJob) ∈ (clearOldJobs 1000000 10 [("b", processingJob)]).1 :=
  (gc_removes_only_old_complete_jobs 1000000 10 [("b", processingJob)]).2.2
    ("b", processingJob) (by decide) (by decide)

/-! ## Destination-folder resolution failure (claim C6)

`createJob` resolves the destination folder with `await createFolder(...)`
before the job record is built, inserted, or processed. A failure there
rejects the `createJob` promise itself: the `POST /api/copy` handler catches
it and answers 500; no job record ever exists, so no job reports an Error
status. -/

/-- A remote client whose folder creation fails. -/
def apiCreateFail : DriveApi :=
  { getMeta := fun _ => .error "net", createF := fun _ _ => .error "net",
    permit := fun _ _ _ => .error "net", copyF := fun _ _ _ => .error "net",
    listChildren := fun _ => .error "net" }

/-- Claim C6 counterexample: with folder resolution failing, the submission
itself fails (`createJob` returns an error, the route answers 500) and the
job map stays empty — there is no job at all, hence no job whose status is
Error, where the claim requires the failure to surface as a job-level Error
status. -/
theorem folder_resolution_failure_rejects_submission_cx :
    createJob apiCreateFail "copy_1_a" ["https://drive.google.com/file/d/F1/view"]
        none none "Copied_2026-10-11" 0 []
      = Except.error "Failed to create folder"
    ∧ postCopy apiCreateFail "copy_1_a" "Copied_2026-10-11" 0
        { urls := ["https://drive.google.com/file/d/F1/view"] } []
      = ((500, none, some "Failed to create folder"), []) :=
  ⟨rfl, rfl⟩

/-- Claim C6 as amended: when destination-folder resolution fails before any
item starts, the failure surfaces as a rejection of the submission itself:
`createJob` fails with the underlying error before any job record is
registered, the route answers 500 with that message, the job map is
unchanged, and no item is processed. -/
theorem folder_resolution_failure_no_job_created :
    ∀ (api : DriveApi) (jobId : String) (urls : List String)
      (tfn : Option String) (dfn : String) (createdAt : Int) (m : JobMap)
      (e : String),
      createFolder api (tfn.getD dfn) none = .error e →
      createJob api jobId urls none tfn dfn createdAt m = .error e
      ∧ (urls ≠ [] →
          postCopy api jobId dfn createdAt
            { urls := urls, targetFolderId := none, targetFolderName := tfn,
              concurrency := none } m
          = ((500, none, some e), m)) := by
  intro api jobId urls tfn dfn createdAt m e h
  have hcj : createJob api jobId urls none tfn dfn createdAt m = .error e := by
    unfold createJob
    rw [h]
  refine ⟨hcj, ?_⟩
  intro hurls
  unfold postCopy
  cases urls with
  | nil => exact absurd rfl hurls
  | cons u us =>
    simp only [List.isEmpty_cons, Bool.false_eq_true, if_false]
    rw [hcj]

/-- Concrete instance of `folder_resolution_failure_no_job_created`. -/
theorem folder_resolution_failure_no_job_created_witness :
    createJob apiCreateFail "copy_2_b" ["u1", "u2"] none (some "Dest")
        "Copied_d" 5 [] = Except.error "Failed to create folder" :=
  (folder_resolution_failure_no_job_created apiCreateFail "copy_2_b"
    ["u1", "u2"] (some "Dest") "Copied_d" 5 [] "Failed to create folder" rfl).1

/-! ## Per-item failure isolation (claim C2) -/

/-- Claim C2: the worker loop of `batchCopy` yields one result per claimed
item whatever happens (it is never cut short), each index's result depends
only on that item (so a fault in one item leaves every other item's result
untouched and no worker aborts), and a fault raised by the backend for one
item becomes an Error outcome for that index carrying the fault's message,
with the terminal Error event carrying `Error: <message>`. -/
theorem backend_fault_isolated_per_item :
    ∀ (api : DriveApi) (fuel : Nat) (tgt : String) (l : List (Nat × String)),
      (workerLoop api fuel tgt l).1.length = l.length
      ∧ (∀ k : Nat, (workerLoop api fuel tgt l).1[k]?
          = (l[k]?).map (fun it : Nat × String => (processItem api fuel tgt it.1 it.2).1))
      ∧ (∀ i url pid msg ps,
          parseGoogleDriveUrl url = some ⟨pid, DriveResourceType.file⟩ →
          copyFile api pid tgt none = (.error msg, ps) →
          (processItem api fuel tgt i url).1
            = { url := url, success := false, error := some msg }
          ∧ (itemEvents api fuel tgt i url).getLast?
            = some ⟨i, .error, 0, "Error: " ++ msg⟩)
      ∧ (∀ i url pid msg evs,
          parseGoogleDriveUrl url = some ⟨pid, DriveResourceType.folder⟩ →
          copyFolder api fuel pid tgt none = (.error msg, evs) →
          (processItem api fuel tgt i url).1
            = { url := url, success := false, error := some msg }
          ∧ (itemEvents api fuel tgt i url).getLast?
            = some ⟨i, .error, 0, "Error: " ++ msg⟩) := by
  intro api fuel tgt l
  refine ⟨?_, ?_, ?_, ?_⟩
  · induction l with
    | nil => rfl
    | cons it rest ih =>
      obtain ⟨i, url⟩ := it
      unfold workerLoop
      simpa using ih
  · induction l with
    | nil => intro k; rfl
    | cons it rest ih =>
      obtain ⟨i, url⟩ := it
      intro k
      cases k with
      | zero =>
        show (workerLoop api fuel tgt ((i, url) :: rest)).1[0]? = _
        unfold workerLoop
        simp
      | succ k' =>
        show (workerLoop api fuel tgt ((i, url) :: rest)).1[k' + 1]? = _
        unfold workerLoop
        simpa using ih k'
  · intro i url pid msg ps hp hc
    have hresult : processItem api fuel tgt i url
        = ({ url := url, success := false, error := some msg },
           ⟨i, .processing, 0, "Starting..."⟩ ::
             (ps.map (fun p => ⟨i, .processing, (p : Int), "Copying file..."⟩)
               ++ [⟨i, .error, 0, "Error: " ++ msg⟩])) := by
      unfold processItem
      rw [hp]
      dsimp only
      rw [hc]
    refine ⟨by rw [hresult], ?_⟩
    unfold itemEvents
    rw [hresult]
    show (Ev.mk i .processing 0 "Starting..." ::
      (ps.map _ ++ [Ev.mk i .error 0 ("Error: " ++ msg)])).getLast? = _
    rw [← List.cons_append]
    exact List.getLast?_concat _
  · intro i url pid msg evs hp hc
    have hresult : processItem api fuel tgt i url
        = ({ url := url, success := false, error := some msg },
           ⟨i, .processing, 0, "Starting..."⟩ ::
             (evs.map (fun ev =>
                 ⟨i, .processing, folderProgress ev.1 ev.2.1,
                  folderEvMsg ev.1 ev.2.1 ev.2.2⟩)
               ++ [⟨i, .error, 0, "Error: " ++ msg⟩])) := by
      unfold processItem
      rw [hp]
      dsimp only
      rw [hc]
    refine ⟨by rw [hresult], ?_⟩
    unfold itemEvents
    rw [hresult]
    show (Ev.mk i .processing 0 "Starting..." ::
      (evs.map _ ++ [Ev.mk i .error 0 ("Error: " ++ msg)])).getLast? = _
    rw [← List.cons_append]
    exact List.getLast?_concat _

/-- A client failing exactly on the remote copy call, after metadata, for
concrete runs of the failure path. -/
def apiCopyFail : DriveApi :=
  { getMeta := fun fid => .ok ⟨fid, "name-" ++ fid, "text/plain", none, none⟩,
    createF := fun _ _ => .ok (some "newFolder1"),
    permit := fun _ _ _ => .ok (),
    copyF := fun _ _ _ => .error "quota exceeded",
    listChildren := fun _ => .ok [] }

/-- Concrete instance of `backend_fault_isolated_per_item`: under a failing
copy backend, the failing item gets an Error outcome with the service's
message while the loop still yields a result slot for the sibling item. -/
theorem backend_fault_isolated_per_item_witness :
    (workerLoop apiCopyFail 1 "tgt"
        [(0, "https://drive.google.com/file/d/AAA/view"), (1, "zzz")]).1.length = 2
    ∧ (processItem apiCopyFail 1 "tgt" 0
        "https://drive.google.com/file/d/AAA/view").1
      = { url := "https://drive.google.com/file/d/AAA/view", success := false,
          error := some "Failed to copy file" } :=
  ⟨(backend_fault_isolated_per_item apiCopyFail 1 "tgt"
      [(0, "https://drive.google.com/file/d/AAA/view"), (1, "zzz")]).1,
   ((backend_fault_isolated_per_item apiCopyFail 1 "tgt"
      [(0, "https://drive.google.com/file/d/AAA/view"), (1, "zzz")]).2.2.1 0
      "https://drive.google.com/file/d/AAA/view" "AAA" "Failed to copy file"
      [10] (by decide) (by rfl)).1⟩

/-! ## Folder copy counts direct children (claim C10) -/

/-- Success test for a service call result. -/
def exceptOk {α : Type} : Except String α → Bool
  | .ok _ => true
  | .error _ => false

/-- The child loop of `copyFolder` counts one per direct child when every
child copy succeeds. -/
theorem copyChildren_all_ok :
    ∀ (api : DriveApi)
      (recurse : String → String → Option String →
        Except String FolderCopyResult × List (Nat × Nat × String))
      (nid : String) (total : Nat)
      (cs : List DriveFileMetadata) (i : Nat),
      (∀ c ∈ cs, (if c.mimeType = MIME_FOLDER
          then exceptOk (recurse c.id nid (some c.name)).1
          else exceptOk (copyFile api c.id nid none).1) = true) →
      (copyChildren api recurse nid total cs i).1 = .ok cs.length := by
  intro api recurse nid total cs
  induction cs with
  | nil => intro i h; unfold copyChildren; rfl
  | cons c rest ih =>
    intro i h
    have hc := h c (List.mem_cons_self _ _)
    have hrest := fun x hx => h x (List.mem_cons_of_mem _ hx)
    show (copyChildren api recurse nid total (c :: rest) i).1 = _
    unfold copyChildren
    by_cases hm : c.mimeType = MIME_FOLDER
    · rw [if_pos hm] at hc
      simp only [if_pos hm]
      cases hcf : (recurse c.id nid (some c.name)).1 with
      | error e => rw [hcf] at hc; exact absurd hc (by simp [exceptOk])
      | ok v =>
        dsimp only
        have hrec := ih (i + 1) hrest
        cases hp : copyChildren api recurse nid total rest (i + 1) with
        | mk res evs =>
          rw [hp] at hrec
          simp only at hrec
          subst hrec
          rfl
    · rw [if_neg hm] at hc
      simp only [if_neg hm]
      cases hcf : (copyFile api c.id nid none).1 with
      | error e => rw [hcf] at hc; exact absurd hc (by simp [exceptOk])
      | ok v =>
        dsimp only
        have hrec := ih (i + 1) hrest
        cases hp : copyChildren api recurse nid total rest (i + 1) with
        | mk res evs =>
          rw [hp] at hrec
          simp only at hrec
          subst hrec
          rfl

/-- Claim C10: a folder copy whose service calls succeed returns
`filesCopied` equal to the number of direct children of the source folder
(one per child, also when the child is a subfolder, however many files it
contains), and the final Success message of the engine reports exactly that
count. -/
theorem folder_filesCopied_counts_direct_children :
    ∀ (api : DriveApi) (f : Nat) (src dst : String) (m : DriveFileMetadata)
      (nid : String) (cs : List DriveFileMetadata),
      getFileMetadata api src = .ok m →
      createFolder api m.name (some dst) = .ok nid →
      listFilesInFolder api src = .ok cs →
      (∀ c ∈ cs, (if c.mimeType = MIME_FOLDER
          then exceptOk (copyFolder api f c.id nid (some c.name)).1
          else exceptOk (copyFile api c.id nid none).1) = true) →
      (copyFolder api (f + 1) src dst none).1 = .ok ⟨nid, m.name, cs.length⟩
      ∧ (∀ idx url,
          parseGoogleDriveUrl url = some ⟨src, DriveResourceType.folder⟩ →
          (itemEvents api (f + 1) dst idx url).getLast?
            = some ⟨idx, .success, 100,
                "Copied folder: " ++ m.name ++ " (" ++ toString cs.length
                  ++ " files)"⟩) := by
  intro api f src dst m nid cs hmeta hcreate hlist hkids
  have hfolder : copyFolder api (f + 1) src dst none
      = (.ok ⟨nid, m.name, cs.length⟩,
         (copyChildren api (copyFolder api f) nid cs.length cs 0).2) := by
    unfold copyFolder
    rw [hmeta]
    dsimp only
    simp only [Option.getD_none]
    rw [hcreate, hlist]
    dsimp only
    have hloop := copyChildren_all_ok api (copyFolder api f) nid cs.length cs 0 hkids
    cases hp : copyChildren api (copyFolder api f) nid cs.length cs 0 with
    | mk res evs =>
      rw [hp] at hloop
      simp only at hloop
      subst hloop
      rfl
  refine ⟨by rw [hfolder], ?_⟩
  intro idx url hurl
  unfold itemEvents processItem
  rw [hurl]
  dsimp only
  rw [hfolder]
  dsimp only
  rw [← List.cons_append]
  exact List.getLast?_concat _

/-- A drive with folder `R` containing exactly one direct child: the
subfolder `S`, which itself holds two plain files. -/
def apiNested : DriveApi :=
  { getMeta := fun fid =>
      .ok ⟨fid, "n-" ++ fid,
        if fid = "R" || fid = "S" then MIME_FOLDER else "text/plain",
        none, none⟩,
    createF := fun name _ => .ok (some ("made-" ++ name)),
    permit := fun _ _ _ => .ok (),
    copyF := fun src _ _ => .ok ⟨"copy-" ++ src, none, none⟩,
    listChildren := fun fid =>
      if fid = "R" then .ok [⟨"S", "S", MIME_FOLDER, none, none⟩]
      else if fid = "S" then
        .ok [⟨"f1", "f1", "text/plain", none, none⟩,
             ⟨"f2", "f2", "text/plain", none, none⟩]
      else .ok [] }

/-- Concrete instance of `folder_filesCopied_counts_direct_children`: copying
`R` reports `filesCopied = 1` (its one direct child, the subfolder `S`), not
the two files actually inside `S`. -/
theorem folder_filesCopied_counts_direct_children_witness :
    (copyFolder apiNested 2 "R" "D" none).1
      = .ok ⟨"made-n-R", "n-R", [(⟨"S", "S", MIME_FOLDER, none, none⟩ : DriveFileMetadata)].length⟩
    ∧ (itemEvents apiNested 2 "D" 0
        "https://drive.google.com/drive/folders/R").getLast?
      = some ⟨0, .success, 100,
          "Copied folder: " ++ "n-R" ++ " (" ++
            toString [(⟨"S", "S", MIME_FOLDER, none, none⟩ : DriveFileMetadata)].length
            ++ " files)"⟩ :=
  ⟨(folder_filesCopied_counts_direct_children apiNested 1 "R" "D"
      ⟨"R", "n-R", MIME_FOLDER, none, none⟩ "made-n-R"
      [⟨"S", "S", MIME_FOLDER, none, none⟩]
      (by rfl) (by rfl) (by rfl) (by decide)).1,
   (folder_filesCopied_counts_direct_children apiNested 1 "R" "D"
      ⟨"R", "n-R", MIME_FOLDER, none, none⟩ "made-n-R"
      [⟨"S", "S", MIME_FOLDER, none, none⟩]
      (by rfl) (by rfl) (by rfl) (by decide)).2 0
      "https://drive.google.com/drive/folders/R" (by decide)⟩

/-! ## URL parser properties (claim C4) -/

/-- Id characters are never JS whitespace. -/
theorem idChar_not_space (c : Char) (h : isDriveIdChar c = true) :
    isJsSpace c = false := by
  unfold isDriveIdChar at h
  unfold isJsSpace
  simp only [Bool.or_eq_true, Bool.and_eq_true, decide_eq_true_eq] at h
  rw [Bool.eq_false_iff]
  intro habs
  simp only [Bool.or_eq_true, Bool.and_eq_true, decide_eq_true_eq] at habs
  omega

/-- Dropping a prefix literal decomposes the list. -/
theorem dropLit_eq (lit : List Char) :
    ∀ s suf, dropLit lit s = some suf → s = lit ++ suf := by
  induction lit with
  | nil =>
    intro s suf h
    unfold dropLit at h
    cases h
    rfl
  | cons c cs ih =>
    intro s suf h
    cases s with
    | nil => cases h
    | cons d ds =>
      unfold dropLit at h
      by_cases hcd : c = d
      · rw [if_pos hcd] at h
        have := ih ds suf h
        rw [List.cons_append, ← hcd, this]
      · rw [if_neg hcd] at h
        cases h

/-- A literal containing a non-id character never matches inside a string of
id characters. -/
theorem matchLitId_eq_none (lit : List Char) (ch : Char) (hch : ch ∈ lit)
    (hbad : isDriveIdChar ch = false) :
    ∀ s, (∀ c ∈ s, isDriveIdChar c = true) → matchLitId lit s = none := by
  intro s
  induction s with
  | nil => intro _; rfl
  | cons c rest ih =>
    intro hall
    unfold matchLitId
    cases hdl : dropLit lit (c :: rest) with
    | some suf =>
      have hsub := dropLit_eq lit (c :: rest) suf hdl
      have hmem : ch ∈ c :: rest := hsub ▸ List.mem_append_left suf hch
      have := hall ch hmem
      rw [this] at hbad
      cases hbad
    | none =>
      exact ih (fun x hx => hall x (List.mem_cons_of_mem _ hx))

/-- The `uc?` pattern never matches inside a string of id characters. -/
theorem matchUc_eq_none :
    ∀ s, (∀ c ∈ s, isDriveIdChar c = true) → matchUc s = none := by
  intro s
  induction s with
  | nil => intro _; rfl
  | cons c rest ih =>
    intro hall
    unfold matchUc
    cases hdl : dropLit ucLit (c :: rest) with
    | some suf =>
      have hsub := dropLit_eq ucLit (c :: rest) suf hdl
      have hch : '.' ∈ ucLit := by decide
      have hmem : '.' ∈ c :: rest := hsub ▸ List.mem_append_left suf hch
      have := hall '.' hmem
      rw [show isDriveIdChar '.' = false from by decide] at this
      cases this
    | none =>
      exact ih (fun x hx => hall x (List.mem_cons_of_mem _ hx))

/-- `dropWhile` skips a block of satisfied elements. -/
theorem dropWhile_append_all (p : Char → Bool) :
    ∀ (a b : List Char), (∀ c ∈ a, p c = true) →
      List.dropWhile p (a ++ b) = List.dropWhile p b := by
  intro a
  induction a with
  | nil => intro b _; rfl
  | cons c a' ih =>
    intro b h
    rw [List.cons_append, List.dropWhile_cons,
      h c (List.mem_cons_self _ _)]
    exact ih b (fun x hx => h x (List.mem_cons_of_mem _ hx))

/-- `dropWhile` over an append, by whether the first block is consumed. -/
theorem dropWhile_append_cases (p : Char → Bool) :
    ∀ (a b : List Char),
      List.dropWhile p (a ++ b)
        = if List.dropWhile p a = [] then List.dropWhile p b
          else List.dropWhile p a ++ b := by
  intro a
  induction a with
  | nil => intro b; simp
  | cons c a' ih =>
    intro b
    rw [List.cons_append, List.dropWhile_cons, List.dropWhile_cons]
    by_cases hc : p c = true
    · rw [if_pos hc, if_pos hc]
      exact ih b
    · rw [if_neg hc, if_neg hc]
      simp

/-- `dropWhile` is the identity when no element satisfies the predicate. -/
theorem dropWhile_eq_self_of_none (p : Char → Bool) :
    ∀ l : List Char, (∀ c ∈ l, p c = false) → List.dropWhile p l = l := by
  intro l
  induction l with
  | nil => intro _; rfl
  | cons c rest _ =>
    intro h
    rw [List.dropWhile_cons, h c (List.mem_cons_self _ _)]
    simp

/-- Padding with JS whitespace on either side does not change the trim. -/
theorem jsTrim_pad (ws1 l ws2 : List Char)
    (h1 : ∀ c ∈ ws1, isJsSpace c = true) (h2 : ∀ c ∈ ws2, isJsSpace c = true) :
    jsTrim (ws1 ++ (l ++ ws2)) = jsTrim l := by
  unfold jsTrim
  rw [dropWhile_append_all isJsSpace ws1 (l ++ ws2) h1]
  rw [dropWhile_append_cases isJsSpace l ws2]
  by_cases hz : List.dropWhile isJsSpace l = []
  · have h2' : List.dropWhile isJsSpace ws2 = [] :=
      List.dropWhile_eq_nil_iff.mpr (fun x hx => h2 x hx)
    rw [if_pos hz, hz, h2']
  · rw [if_neg hz]
    rw [List.reverse_append]
    rw [dropWhile_append_all isJsSpace ws2.reverse _
      (fun x hx => h2 x (List.mem_reverse.mp hx))]

/-- `parseList` on a nonempty list is pattern dispatch over its trim. -/
theorem parseList_ne_nil (l : List Char) (h : l ≠ []) :
    parseList l = parseTrimmed (jsTrim l) := by
  cases l with
  | nil => exact absurd rfl h
  | cons c cs => rfl

/-- Whitespace padding does not change the parse. -/
theorem parseList_pad (ws1 l ws2 : List Char)
    (h1 : ∀ c ∈ ws1, isJsSpace c = true) (h2 : ∀ c ∈ ws2, isJsSpace c = true) :
    parseList (ws1 ++ (l ++ ws2)) = parseList l := by
  cases l with
  | nil =>
    show parseList (ws1 ++ ([] ++ ws2)) = none
    have htrim := jsTrim_pad ws1 [] ws2 h1 h2
    cases hcomb : ws1 ++ ([] ++ ws2) with
    | nil => rfl
    | cons c cs =>
      rw [hcomb] at htrim
      unfold parseList
      rw [htrim]
      rfl
  | cons c l' =>
    have hne : ws1 ++ ((c :: l') ++ ws2) ≠ [] := by simp
    rw [parseList_ne_nil _ hne, parseList_ne_nil (c :: l') (by simp),
      jsTrim_pad ws1 (c :: l') ws2 h1 h2]

/-- Trimming a pure id-character string is the identity. -/
theorem jsTrim_of_idChars (l : List Char)
    (h : ∀ c ∈ l, isDriveIdChar c = true) : jsTrim l = l := by
  unfold jsTrim
  rw [dropWhile_eq_self_of_none _ l (fun c hc => idChar_not_space c (h c hc))]
  rw [dropWhile_eq_self_of_none _ l.reverse
    (fun c hc => idChar_not_space c (h c (List.mem_reverse.mp hc)))]
  exact List.reverse_reverse l

/-- A bare id-character string of length at least 25 parses as a file. -/
theorem parseList_of_idChars (l : List Char)
    (hall : ∀ c ∈ l, isDriveIdChar c = true) (hlen : 25 ≤ l.length) :
    parseList l = some ⟨String.mk l, DriveResourceType.file⟩ := by
  have hne : l ≠ [] := by
    intro hl
    rw [hl] at hlen
    simp at hlen
  rw [parseList_ne_nil l hne, jsTrim_of_idChars l hall]
  unfold parseTrimmed
  rw [matchLitId_eq_none fileLit '.' (by decide) (by decide) l hall]
  dsimp only
  rw [matchLitId_eq_none openLit '.' (by decide) (by decide) l hall]
  dsimp only
  rw [matchUc_eq_none l hall]
  dsimp only
  rw [matchLitId_eq_none folderLit '.' (by decide) (by decide) l hall]
  dsimp only
  have hid : isDriveIdOnly l = true := by
    unfold isDriveIdOnly
    simp only [Bool.and_eq_true, decide_eq_true_eq]
    exact ⟨hlen, List.all_eq_true.mpr hall⟩
  simp [hid]

/-- A bare id-character string shorter than 25 characters does not parse. -/
theorem parseList_of_idChars_short (l : List Char)
    (hall : ∀ c ∈ l, isDriveIdChar c = true) (hlen : l.length < 25) :
    parseList l = none := by
  cases hl : l with
  | nil => rfl
  | cons c cs =>
    rw [← hl]
    have hne : l ≠ [] := by rw [hl]; simp
    rw [parseList_ne_nil l hne, jsTrim_of_idChars l hall]
    unfold parseTrimmed
    rw [matchLitId_eq_none fileLit '.' (by decide) (by decide) l hall]
    dsimp only
    rw [matchLitId_eq_none openLit '.' (by decide) (by decide) l hall]
    dsimp only
    rw [matchUc_eq_none l hall]
    dsimp only
    rw [matchLitId_eq_none folderLit '.' (by decide) (by decide) l hall]
    dsimp only
    have hid : isDriveIdOnly l = false := by
      unfold isDriveIdOnly
      simp only [Bool.and_eq_false_iff, decide_eq_false_iff_not]
      left
      omega
    simp [hid]

/-- Claim C4: `parseGoogleDriveUrl` recognizes, in priority order, the
file-view link, the `open?id=` link, the `uc?id=` download link, the folder
link, and then a bare identifier of at least 25 id characters (as a file);
the first matching pattern determines the result (a file pattern found
anywhere wins over a folder link that occurs earlier in the string); if no
pattern matches — in particular any pure id string shorter than 25
characters — the parse is `none` rather than a failure, and surrounding
whitespace is tolerated. -/
theorem parse_url_priority_and_whitespace :
    (∀ url : String, parseGoogleDriveUrl url = parseList url.data)
    ∧ (∀ (ws1 l ws2 : List Char),
        (∀ c ∈ ws1, isJsSpace c = true) → (∀ c ∈ ws2, isJsSpace c = true) →
        parseList (ws1 ++ (l ++ ws2)) = parseList l)
    ∧ parseGoogleDriveUrl "https://drive.google.com/file/d/1A2B3C/view"
        = some ⟨"1A2B3C", DriveResourceType.file⟩
    ∧ parseGoogleDriveUrl "https://drive.google.com/open?id=XYZ_789"
        = some ⟨"XYZ_789", DriveResourceType.file⟩
    ∧ parseGoogleDriveUrl "https://drive.google.com/uc?export=download&id=ABC-123"
        = some ⟨"ABC-123", DriveResourceType.file⟩
    ∧ parseGoogleDriveUrl "https://drive.google.com/drive/folders/0Folder_abc"
        = some ⟨"0Folder_abc", DriveResourceType.folder⟩
    ∧ parseGoogleDriveUrl
        "https://drive.google.com/drive/folders/AAA111 also drive.google.com/file/d/BBB222/x"
        = some ⟨"BBB222", DriveResourceType.file⟩
    ∧ (∀ l : List Char, (∀ c ∈ l, isDriveIdChar c = true) → 25 ≤ l.length →
        parseList l = some ⟨String.mk l, DriveResourceType.file⟩)
    ∧ (∀ l : List Char, (∀ c ∈ l, isDriveIdChar c = true) → l.length < 25 →
        parseList l = none)
    ∧ parseGoogleDriveUrl "not-a-url" = none
    ∧ parseGoogleDriveUrl "" = none := by
  refine ⟨fun url => rfl, parseList_pad, by decide, by decide, by decide,
    by decide, by decide, parseList_of_idChars, parseList_of_idChars_short,
    by decide, rfl⟩

/-- Concrete instances of `parse_url_priority_and_whitespace`: padding a
folder link with whitespace, and a 29-character bare id. -/
theorem parse_url_priority_and_whitespace_witness :
    parseList ([' '] ++ ("https://drive.google.com/drive/folders/Q9".data ++ [' ', '\t']))
      = parseList "https://drive.google.com/drive/folders/Q9".data
    ∧ parseList "1BxiMVs0XRA5nFMdKvBdBZjgmUts7".data
      = some ⟨"1BxiMVs0XRA5nFMdKvBdBZjgmUts7", DriveResourceType.file⟩ :=
  ⟨parse_url_priority_and_whitespace.2.1 [' ']
      "https://drive.google.com/drive/folders/Q9".data [' ', '\t']
      (by decide) (by decide),
   parse_url_priority_and_whitespace.2.2.2.2.2.2.2.1
      "1BxiMVs0XRA5nFMdKvBdBZjgmUts7".data (by decide) (by decide)⟩

/-! ## Per-item event sequences (claim C7) -/

/-- The child loop emits events with a shared `total`, consecutive
increasing `current` values bounded by `i + cs.length`. -/
theorem copyChildren_events (api : DriveApi)
    (recurse : String → String → Option String →
      Except String FolderCopyResult × List (Nat × Nat × String))
    (nid : String) (total : Nat) :
    ∀ (cs : List DriveFileMetadata) (i : Nat),
      (∀ ev ∈ (copyChildren api recurse nid total cs i).2,
        ev.2.1 = total ∧ i + 1 ≤ ev.1 ∧ ev.1 ≤ i + cs.length)
      ∧ List.Chain' (fun a b : Nat × Nat × String => a.1 ≤ b.1 ∧ a.2.1 = b.2.1)
          (copyChildren api recurse nid total cs i).2 := by
  intro cs
  induction cs with
  | nil =>
    intro i
    unfold copyChildren
    exact ⟨fun ev h => absurd h (List.not_mem_nil ev), List.chain'_nil⟩
  | cons c rest ih =>
    intro i
    unfold copyChildren
    dsimp only
    split
    · constructor
      · intro ev hmem
        simp only [List.mem_singleton] at hmem
        subst hmem
        refine ⟨rfl, le_refl _, ?_⟩
        simp only [List.length_cons]
        omega
      · exact List.chain'_singleton _
    · rename_i u heq
      obtain ⟨ihb, ihc⟩ := ih (i + 1)
      split
      all_goals rename_i res evs heq2
      all_goals rw [heq2] at ihb ihc
      all_goals simp only at ihb ihc
      all_goals constructor
      all_goals try
        (intro ev hmem
         rcases List.mem_cons.mp hmem with rfl | hmem'
         · refine ⟨rfl, le_refl _, ?_⟩
           simp only [List.length_cons]
           omega
         · obtain ⟨ht, hlo, hhi⟩ := ihb ev hmem'
           refine ⟨ht, by omega, ?_⟩
           simp only [List.length_cons]
           omega)
      all_goals
        (rw [List.chain'_cons']
         refine ⟨?_, ihc⟩
         intro h hh
         have hmem := List.mem_of_mem_head? hh
         obtain ⟨ht, hlo, _⟩ := ihb h hmem
         exact ⟨by omega, ht.symm⟩)

/-- Whatever the outcome, the events of a folder copy share one `total`,
carry `current` values between 1 and that total, and are non-decreasing in
`current`. -/
theorem copyFolder_events :
    ∀ (api : DriveApi) (fuel : Nat) (src dst : String) (nn : Option String),
      List.Chain' (fun a b : Nat × Nat × String => a.1 ≤ b.1 ∧ a.2.1 = b.2.1)
        (copyFolder api fuel src dst nn).2
      ∧ ∃ T, ∀ ev ∈ (copyFolder api fuel src dst nn).2,
          ev.2.1 = T ∧ 1 ≤ ev.1 ∧ ev.1 ≤ T := by
  intro api fuel src dst nn
  cases fuel with
  | zero =>
    exact ⟨List.chain'_nil, 0, fun ev h => absurd h (List.not_mem_nil ev)⟩
  | succ f =>
    unfold copyFolder
    split
    · exact ⟨List.chain'_nil, 0, fun ev h => absurd h (List.not_mem_nil ev)⟩
    · rename_i meta hmeta
      dsimp only
      split
      · exact ⟨List.chain'_nil, 0, fun ev h => absurd h (List.not_mem_nil ev)⟩
      · rename_i nid hnid
        split
        · exact ⟨List.chain'_nil, 0, fun ev h => absurd h (List.not_mem_nil ev)⟩
        · rename_i files hfiles
          obtain ⟨hb, hc⟩ :=
            copyChildren_events api (copyFolder api f) nid files.length files 0
          split
          all_goals rename_i res evs heq2
          all_goals rw [heq2] at hb hc
          all_goals simp only at hb hc
          all_goals refine ⟨hc, files.length, ?_⟩
          all_goals intro ev hmem
          all_goals obtain ⟨ht, hlo, hhi⟩ := hb ev hmem
          all_goals exact ⟨ht, by omega, by omega⟩

/-- Monotonicity and bounds for the folder progress computation. -/
theorem folderProgress_mono (a b t : Nat) (h : a ≤ b) :
    folderProgress a t ≤ folderProgress b t := by
  unfold folderProgress
  exact_mod_cast Nat.div_le_div_right (Nat.mul_le_mul_left 100 h)

theorem folderProgress_nonneg (c t : Nat) : 0 ≤ folderProgress c t := by
  unfold folderProgress
  exact_mod_cast Nat.zero_le _

theorem folderProgress_le_100 (c t : Nat) (h1 : 1 ≤ c) (h2 : c ≤ t) :
    folderProgress c t ≤ 100 := by
  unfold folderProgress
  have ht : 0 < t := lt_of_lt_of_le h1 h2
  have : (100 * c) / t ≤ (100 * t) / t :=
    Nat.div_le_div_right (Nat.mul_le_mul_left 100 h2)
  rw [Nat.mul_div_cancel 100 ht] at this
  exact_mod_cast this

/-- An element of `getLast?` is an element of the list. -/
theorem mem_from_getLast? {α : Type} {l : List α} {x : α}
    (h : x ∈ l.getLast?) : x ∈ l := by
  obtain ⟨hne, rfl⟩ := List.mem_getLast?_eq_getLast h
  exact List.getLast_mem hne

/-- The progress checkpoints a single-file copy can emit: the full
`[10, 90, 100]` on success, a strict prefix of it on failure. -/
theorem copyFile_progress_shapes :
    ∀ (api : DriveApi) (s t : String) (nn : Option String),
      (∀ r, (copyFile api s t nn).1 = .ok r →
        (copyFile api s t nn).2 = [10, 90, 100])
      ∧ (∀ e, (copyFile api s t nn).1 = .error e →
          ((copyFile api s t nn).2 = [] ∨ (copyFile api s t nn).2 = [10]
            ∨ (copyFile api s t nn).2 = [10, 90])) := by
  intro api s t nn
  unfold copyFile
  split
  · exact ⟨fun r hr => (nomatch hr), fun e he => Or.inl rfl⟩
  · dsimp only
    split
    · exact ⟨fun r hr => (nomatch hr), fun e he => Or.inr (Or.inl rfl)⟩
    · split
      · exact ⟨fun r hr => (nomatch hr), fun e he => Or.inr (Or.inr rfl)⟩
      · exact ⟨fun r hr => rfl, fun e he => (nomatch he)⟩

/-- Shape of every item's event sequence: a block of Processing events with
non-decreasing percents, closed by exactly one terminal event; a Success
terminal extends the monotone sequence at 100, an Error terminal carries 0. -/
theorem itemEvents_shape :
    ∀ (api : DriveApi) (fuel : Nat) (tgt : String) (idx : Nat) (url : String),
      ∃ pre last,
        itemEvents api fuel tgt idx url = pre ++ [last]
        ∧ (last.status = CopyItemStatus.success
            ∨ last.status = CopyItemStatus.error)
        ∧ (∀ e ∈ pre, e.status = CopyItemStatus.processing)
        ∧ List.Chain' (fun a b : Ev => a.progress ≤ b.progress) pre
        ∧ (last.status = CopyItemStatus.success →
            List.Chain' (fun a b : Ev => a.progress ≤ b.progress) (pre ++ [last]))
        ∧ (last.status = CopyItemStatus.error → last.progress = 0) := by
  intro api fuel tgt idx url
  unfold itemEvents processItem
  cases hp : parseGoogleDriveUrl url with
  | none =>
    dsimp only
    exact ⟨[], ⟨idx, .error, 0, "Error: Invalid Google Drive URL"⟩, rfl,
      Or.inr rfl, fun e he => absurd he (List.not_mem_nil e), List.chain'_nil,
      fun habs => (nomatch habs), fun _ => rfl⟩
  | some parsed =>
    obtain ⟨pid, ptype⟩ := parsed
    dsimp only
    cases ptype with
    | file =>
      dsimp only
      obtain ⟨hok, herr⟩ := copyFile_progress_shapes api pid tgt none
      cases hcf : copyFile api pid tgt none with
      | mk cres ps =>
        rw [hcf] at hok herr
        simp only at hok herr
        cases cres with
        | ok r =>
          have hps := hok r rfl
          subst hps
          dsimp only
          refine ⟨[⟨idx, .processing, 0, "Starting..."⟩,
                   ⟨idx, .processing, 10, "Copying file..."⟩,
                   ⟨idx, .processing, 90, "Copying file..."⟩,
                   ⟨idx, .processing, 100, "Copying file..."⟩],
                  ⟨idx, .success, 100, "Copied: " ++ r.name⟩,
                  rfl, Or.inl rfl, ?_, ?_, ?_, fun habs => (nomatch habs)⟩
          · intro e he
            fin_cases he <;> rfl
          · norm_num [List.chain'_cons, List.chain'_singleton]
          · intro _
            norm_num [List.chain'_cons, List.chain'_singleton]
        | error e =>
          rcases herr e rfl with h0 | h1 | h2
          · subst h0
            dsimp only
            exact ⟨[⟨idx, .processing, 0, "Starting..."⟩],
              ⟨idx, .error, 0, "Error: " ++ e⟩, rfl, Or.inr rfl,
              fun x hx => by fin_cases hx; rfl,
              List.chain'_singleton _, fun habs => (nomatch habs), fun _ => rfl⟩
          · subst h1
            dsimp only
            refine ⟨[⟨idx, .processing, 0, "Starting..."⟩,
                     ⟨idx, .processing, 10, "Copying file..."⟩],
              ⟨idx, .error, 0, "Error: " ++ e⟩, rfl, Or.inr rfl,
              fun x hx => by fin_cases hx <;> rfl, ?_,
              fun habs => (nomatch habs), fun _ => rfl⟩
            norm_num [List.chain'_cons, List.chain'_singleton]
          · subst h2
            dsimp only
            refine ⟨[⟨idx, .processing, 0, "Starting..."⟩,
                     ⟨idx, .processing, 10, "Copying file..."⟩,
                     ⟨idx, .processing, 90, "Copying file..."⟩],
              ⟨idx, .error, 0, "Error: " ++ e⟩, rfl, Or.inr rfl,
              fun x hx => by fin_cases hx <;> rfl, ?_,
              fun habs => (nomatch habs), fun _ => rfl⟩
            norm_num [List.chain'_cons, List.chain'_singleton]
    | folder =>
      dsimp only
      obtain ⟨hchain, T, hT⟩ := copyFolder_events api fuel pid tgt none
      cases hcf : copyFolder api fuel pid tgt none with
      | mk res evs =>
        rw [hcf] at hchain hT
        simp only at hchain hT
        have hmapchain : List.Chain' (fun a b : Ev => a.progress ≤ b.progress)
            (evs.map (fun ev =>
              (⟨idx, .processing, folderProgress ev.1 ev.2.1,
                folderEvMsg ev.1 ev.2.1 ev.2.2⟩ : Ev))) := by
          rw [List.chain'_map]
          refine hchain.imp ?_
          intro a b hab
          obtain ⟨h1, h2⟩ := hab
          show folderProgress a.1 a.2.1 ≤ folderProgress b.1 b.2.1
          rw [h2]
          exact folderProgress_mono a.1 b.1 b.2.1 h1
        have hpre : List.Chain' (fun a b : Ev => a.progress ≤ b.progress)
            ((⟨idx, .processing, 0, "Starting..."⟩ : Ev) ::
              evs.map (fun ev =>
                (⟨idx, .processing, folderProgress ev.1 ev.2.1,
                  folderEvMsg ev.1 ev.2.1 ev.2.2⟩ : Ev))) := by
          refine List.Chain'.cons' hmapchain ?_
          intro y hy
          obtain ⟨ev, _, rfl⟩ := List.mem_map.mp (List.mem_of_mem_head? hy)
          exact folderProgress_nonneg ev.1 ev.2.1
        have hmem100 : ∀ x ∈ (⟨idx, .processing, 0, "Starting..."⟩ : Ev) ::
            evs.map (fun ev =>
              (⟨idx, .processing, folderProgress ev.1 ev.2.1,
                folderEvMsg ev.1 ev.2.1 ev.2.2⟩ : Ev)),
            x.progress ≤ 100 := by
          intro x hx
          rcases List.mem_cons.mp hx with rfl | hm
          · norm_num
          · obtain ⟨ev, hev, rfl⟩ := List.mem_map.mp hm
            obtain ⟨ht, hlo, hhi⟩ := hT ev hev
            exact folderProgress_le_100 ev.1 ev.2.1 hlo (ht ▸ hhi)
        have hproc : ∀ e ∈ (⟨idx, .processing, 0, "Starting..."⟩ : Ev) ::
            evs.map (fun ev =>
              (⟨idx, .processing, folderProgress ev.1 ev.2.1,
                folderEvMsg ev.1 ev.2.1 ev.2.2⟩ : Ev)),
            e.status = CopyItemStatus.processing := by
          intro e he
          rcases List.mem_cons.mp he with rfl | hm
          · rfl
          · obtain ⟨ev, _, rfl⟩ := List.mem_map.mp hm
            rfl
        cases res with
        | ok r =>
          refine ⟨_, ⟨idx, .success, 100,
              "Copied folder: " ++ r.name ++ " (" ++ toString r.filesCopied
                ++ " files)"⟩,
            rfl, Or.inl rfl, hproc, hpre, ?_, fun habs => (nomatch habs)⟩
          intro _
          refine List.Chain'.append hpre (List.chain'_singleton _) ?_
          intro x hx y hy
          have hx' := mem_from_getLast? hx
          have hy' : y = ⟨idx, .success, 100,
              "Copied folder: " ++ r.name ++ " (" ++ toString r.filesCopied
                ++ " files)"⟩ := by
            have := hy
            simp only [List.head?_cons, Option.mem_some_iff] at this
            exact this.symm
          subst hy'
          exact hmem100 x hx'
        | error msg =>
          exact ⟨_, ⟨idx, .error, 0, "Error: " ++ msg⟩,
            rfl, Or.inr rfl, hproc, hpre, fun habs => (nomatch habs),
            fun _ => rfl⟩

/-- Claim C7 as amended: every item's event sequence ends in exactly one
terminal event (everything before it is a Processing event); the Processing
events are monotonically non-decreasing in percent; when the item ends in
Success the whole sequence including the terminal 100% event is
non-decreasing; a terminal Error event however always carries percent 0,
which may be lower than progress already reported. -/
theorem item_events_single_terminal_shape :
    ∀ (api : DriveApi) (fuel : Nat) (tgt : String) (idx : Nat) (url : String),
      ∃ pre last,
        itemEvents api fuel tgt idx url = pre ++ [last]
        ∧ (last.status = CopyItemStatus.success
            ∨ last.status = CopyItemStatus.error)
        ∧ (∀ e ∈ pre, e.status = CopyItemStatus.processing)
        ∧ List.Chain' (fun a b : Ev => a.progress ≤ b.progress) pre
        ∧ (last.status = CopyItemStatus.success →
            List.Chain' (fun a b : Ev => a.progress ≤ b.progress) (pre ++ [last]))
        ∧ (last.status = CopyItemStatus.error → last.progress = 0) :=
  itemEvents_shape

/-- Claim C7 counterexample: when the remote copy call fails after the first
file-progress checkpoint, the item's event sequence runs 0%, 10%, then a
terminal Error event at 0% — the percents are not monotonically
non-decreasing, though the sequence does end in one terminal event. -/
theorem item_progress_not_monotone_on_failure :
    itemEvents apiCopyFail 1 "tgt" 0 "https://drive.google.com/file/d/AAA/view"
      = [⟨0, .processing, 0, "Starting..."⟩,
         ⟨0, .processing, 10, "Copying file..."⟩,
         ⟨0, .error, 0, "Error: Failed to copy file"⟩]
    ∧ ¬ List.Chain' (fun a b : Ev => a.progress ≤ b.progress)
        (itemEvents apiCopyFail 1 "tgt" 0
          "https://drive.google.com/file/d/AAA/view") := by
  constructor
  · rfl
  · intro h
    rw [show itemEvents apiCopyFail 1 "tgt" 0
        "https://drive.google.com/file/d/AAA/view"
      = [⟨0, .processing, 0, "Starting..."⟩,
         ⟨0, .processing, 10, "Copying file..."⟩,
         ⟨0, .error, 0, "Error: Failed to copy file"⟩] from rfl] at h
    rw [List.chain'_cons, List.chain'_cons] at h
    have := h.2.1
    norm_num at this

/-- Concrete instance of `item_events_single_terminal_shape`. -/
theorem item_events_single_terminal_shape_witness :
    ∃ pre last,
      itemEvents apiCopyFail 1 "tgt" 1 "https://drive.google.com/file/d/BBB/view"
        = pre ++ [last]
      ∧ (last.status = CopyItemStatus.success
          ∨ last.status = CopyItemStatus.error)
      ∧ (∀ e ∈ pre, e.status = CopyItemStatus.processing)
      ∧ List.Chain' (fun a b : Ev => a.progress ≤ b.progress) pre
      ∧ (last.status = CopyItemStatus.success →
          List.Chain' (fun a b : Ev => a.progress ≤ b.progress) (pre ++ [last]))
      ∧ (last.status = CopyItemStatus.error → last.progress = 0) :=
  item_events_single_terminal_shape apiCopyFail 1 "tgt" 1
    "https://drive.google.com/file/d/BBB/view"

/-! ## Job completion invariants (claim C1) -/

/-- Applying one progress event never changes the item count. -/
theorem applyItemUpdate_items_length (job : CopyJob) (e : Ev) :
    (applyItemUpdate job e).items.length = job.items.length := by
  unfold applyItemUpdate
  split
  · split
    · simp [List.length_set]
    · simp [List.length_set]
  · rfl

/-- Applying one progress event never changes `totalItems`. -/
theorem applyItemUpdate_totalItems (job : CopyJob) (e : Ev) :
    (applyItemUpdate job e).totalItems = job.totalItems := by
  unfold applyItemUpdate
  split
  · split
    · rfl
    · rfl
  · rfl

/-- Applying a trace never changes the item count. -/
theorem applyTrace_items_length (tr : List Ev) :
    ∀ job : CopyJob, (applyTrace job tr).items.length = job.items.length := by
  induction tr with
  | nil => intro job; rfl
  | cons e tr' ih =>
    intro job
    show (applyTrace (applyItemUpdate job e) tr').items.length = _
    rw [ih, applyItemUpdate_items_length]

/-- Applying a trace never changes `totalItems`. -/
theorem applyTrace_totalItems (tr : List Ev) :
    ∀ job : CopyJob, (applyTrace job tr).totalItems = job.totalItems := by
  induction tr with
  | nil => intro job; rfl
  | cons e tr' ih =>
    intro job
    show (applyTrace (applyItemUpdate job e) tr').totalItems = _
    rw [ih, applyItemUpdate_totalItems]

/-- The status recorded for item `i`, when it exists. -/
def statusAt (items : List CopyItem) (i : Nat) : Option CopyItemStatus :=
  (items[i]?).map CopyItem.status

/-- The fresh job has `urls.length` items, all Pending, count 0. -/
theorem mkJob_items_length (jobId : String) (urls : List String)
    (folderId : String) (createdAt : Int) :
    (mkJob jobId urls folderId createdAt).items.length = urls.length := by
  simp [mkJob]

theorem mkJob_statusAt (jobId : String) (urls : List String)
    (folderId : String) (createdAt : Int) (i : Nat) (hi : i < urls.length) :
    statusAt (mkJob jobId urls folderId createdAt).items i
      = some CopyItemStatus.pending := by
  unfold mkJob statusAt
  simp only
  rw [List.getElem?_map]
  rw [show urls.enum[i]? = urls[i]?.map fun a => (i, a) by
    simp [List.getElem?_enum]]
  rw [List.getElem?_eq_getElem hi]
  rfl

theorem mkJob_countCompleted (jobId : String) (urls : List String)
    (folderId : String) (createdAt : Int) :
    countCompleted (mkJob jobId urls folderId createdAt).items = 0 := by
  unfold mkJob countCompleted
  simp only [List.length_eq_zero]
  rw [List.filter_eq_nil_iff]
  intro a ha
  obtain ⟨p, _, rfl⟩ := List.mem_map.mp ha
  simp [isTerminalItem]

/-- Count preservation when an item is overwritten without changing whether
it is terminal. -/
theorem countCompleted_set (items : List CopyItem) :
    ∀ (j : Nat) (x it : CopyItem), items[j]? = some it →
      isTerminalItem it.status = isTerminalItem x.status →
      countCompleted (items.set j x) = countCompleted items := by
  induction items with
  | nil => intro j x it hit _; cases hit
  | cons a rest ih =>
    intro j x it hit hsame
    cases j with
    | zero =>
      simp only [List.getElem?_cons_zero, Option.some.injEq] at hit
      subst hit
      show countCompleted (x :: rest) = countCompleted (a :: rest)
      unfold countCompleted
      rw [List.filter_cons, List.filter_cons]
      by_cases hx : isTerminalItem x.status = true
      · rw [if_pos hx, if_pos (by rw [hsame]; exact hx)]
        simp
      · rw [if_neg hx, if_neg (by rw [hsame]; exact hx)]
    | succ j' =>
      simp only [List.getElem?_cons_succ] at hit
      show countCompleted (a :: rest.set j' x) = countCompleted (a :: rest)
      unfold countCompleted
      rw [List.filter_cons, List.filter_cons]
      have := ih j' x it hit hsame
      unfold countCompleted at this
      split
      · simp [this]
      · exact this

/-- Full count means every item is terminal, and conversely. -/
theorem countCompleted_eq_length_iff (items : List CopyItem) :
    countCompleted items = items.length
      ↔ ∀ it ∈ items, isTerminalItem it.status = true := by
  unfold countCompleted
  constructor
  · intro h it hmem
    exact List.filter_length_eq_length.mp h it hmem
  · intro h
    rw [List.filter_eq_self.mpr h]

/-- One update rewrites exactly the addressed item's status. -/
theorem applyItemUpdate_statusAt_eq (job : CopyJob) (e : Ev)
    (he : e.index < job.items.length) :
    statusAt (applyItemUpdate job e).items e.index = some e.status := by
  unfold applyItemUpdate
  rw [dif_pos he]
  unfold statusAt
  split
  · simp only
    rw [List.getElem?_set_eq_of_lt _ he]
    rfl
  · simp only
    rw [List.getElem?_set_eq_of_lt _ he]
    rfl

/-- One update leaves every other item's status unchanged. -/
theorem applyItemUpdate_statusAt_ne (job : CopyJob) (e : Ev) (i : Nat)
    (hne : e.index ≠ i) :
    statusAt (applyItemUpdate job e).items i = statusAt job.items i := by
  unfold applyItemUpdate
  split
  · unfold statusAt
    split
    · simp only
      rw [List.getElem?_set_ne hne]
    · simp only
      rw [List.getElem?_set_ne hne]
  · rfl

/-- After a trace, an item's status is that of the last event addressed to
it, or its original status if none was. -/
theorem applyTrace_statusAt (tr : List Ev) :
    ∀ (job : CopyJob) (i : Nat), i < job.items.length →
      (∀ e ∈ tr, e.index < job.items.length) →
      statusAt (applyTrace job tr).items i
        = match (tr.filter (fun e => e.index == i)).getLast? with
          | none => statusAt job.items i
          | some e => some e.status := by
  induction tr with
  | nil => intro job i _ _; rfl
  | cons e tr' ih =>
    intro job i hi hall
    have he : e.index < job.items.length := hall e (List.mem_cons_self _ _)
    have hall' : ∀ x ∈ tr', x.index < (applyItemUpdate job e).items.length := by
      intro x hx
      rw [applyItemUpdate_items_length]
      exact hall x (List.mem_cons_of_mem _ hx)
    have hi' : i < (applyItemUpdate job e).items.length := by
      rw [applyItemUpdate_items_length]
      exact hi
    show statusAt (applyTrace (applyItemUpdate job e) tr').items i = _
    rw [ih (applyItemUpdate job e) i hi' hall']
    by_cases hidx : e.index = i
    · have hfe : (e :: tr').filter (fun x => x.index == i)
          = e :: tr'.filter (fun x => x.index == i) := by
        simp [List.filter_cons, hidx]
      rw [hfe]
      cases hrest : tr'.filter (fun x => x.index == i) with
      | nil =>
        simp only [List.getLast?_singleton]
        rw [← hidx]
        exact applyItemUpdate_statusAt_eq job e he
      | cons g gs =>
        rw [List.getLast?_cons_cons,
          List.getLast?_eq_getLast_of_ne_nil (List.cons_ne_nil g gs)]
    · have hfe : (e :: tr').filter (fun x => x.index == i)
          = tr'.filter (fun x => x.index == i) := by
        simp [List.filter_cons, hidx]
      rw [hfe, applyItemUpdate_statusAt_ne job e i hidx]

/-- After a trace ending in a terminal event for an existing item, the
stored count is the recount over the final items. -/
theorem applyTrace_concat_terminal (job : CopyJob) (tr : List Ev) (e : Ev)
    (he : e.index < job.items.length) (hterm : isTerminalItem e.status = true) :
    (applyTrace job (tr ++ [e])).completedItems
      = countCompleted (applyTrace job (tr ++ [e])).items := by
  have hstep : applyTrace job (tr ++ [e])
      = applyItemUpdate (applyTrace job tr) e := by
    unfold applyTrace
    rw [List.foldl_append]
    rfl
  rw [hstep]
  unfold applyItemUpdate
  rw [dif_pos (by rw [applyTrace_items_length]; exact he)]
  rw [if_pos hterm]

/-- The last event of a filtered trace is the trace's last event when that
event satisfies the filter. -/
theorem filter_getLast (l : List Ev) (p : Ev → Bool) :
    ∀ (pre : List Ev) (e : Ev), l = pre ++ [e] → p e = true →
      (l.filter p).getLast? = some e := by
  intro pre e hl hp
  subst hl
  rw [List.filter_append]
  rw [show List.filter p [e] = [e] by simp [hp]]
  exact List.getLast?_concat _

/-- A prefix of processing events closed by one terminal event that itself
ends terminally is the whole sequence. -/
theorem prefix_terminal_full (s pre : List Ev) (e : Ev)
    (hs : s <+: pre ++ [e]) (hpre : ∀ x ∈ pre, x.status = CopyItemStatus.processing)
    (g : Ev) (hg : s.getLast? = some g)
    (hterm : isTerminalItem g.status = true) : s = pre ++ [e] := by
  have hglen : s.length ≤ pre.length + 1 := by
    have := hs.length_le
    simpa using this
  by_cases hlen : s.length = pre.length + 1
  · exact hs.eq_of_length (by simpa using hlen)
  · exfalso
    have hle : s.length ≤ pre.length := by omega
    have hst : s = (pre ++ [e]).take s.length := List.prefix_iff_eq_take.mp hs
    rw [List.take_append_of_le_length hle] at hst
    have hgmem : g ∈ s := mem_from_getLast? hg
    rw [hst] at hgmem
    have : g ∈ pre := (List.take_sublist _ _).mem hgmem
    rw [hpre g this] at hterm
    cases hterm

/-- In a trace consistent with the engine, an event's addressed item cannot
already be terminal before the event: each item's events stop at its single
terminal event. -/
theorem addressed_item_not_terminal
    (api : DriveApi) (fuel : Nat) (tgt jobId : String) (urls : List String)
    (folderId : String) (createdAt : Int) (t : List Ev) (e : Ev)
    (he : e.index < urls.length)
    (h1t : ∀ x ∈ t, x.index < urls.length)
    (hfull : (t ++ [e]).filter (fun x => x.index == e.index)
        <+: itemEvents api fuel tgt e.index urls[e.index]) :
    ∀ st, statusAt (applyTrace (mkJob jobId urls folderId createdAt) t).items
        e.index = some st → isTerminalItem st = false := by
  intro st hst
  have hlen0 : e.index < (mkJob jobId urls folderId createdAt).items.length := by
    rw [mkJob_items_length]
    exact he
  have hall0 : ∀ x ∈ t,
      x.index < (mkJob jobId urls folderId createdAt).items.length := by
    intro x hx
    rw [mkJob_items_length]
    exact h1t x hx
  rw [applyTrace_statusAt t _ e.index hlen0 hall0] at hst
  have hfe : (t ++ [e]).filter (fun x => x.index == e.index)
      = t.filter (fun x => x.index == e.index) ++ [e] := by
    rw [List.filter_append]
    simp
  rw [hfe] at hfull
  cases hlast : (t.filter (fun x => x.index == e.index)).getLast? with
  | none =>
    rw [hlast] at hst
    simp only at hst
    rw [mkJob_statusAt jobId urls folderId createdAt e.index he] at hst
    have : st = CopyItemStatus.pending := by
      simpa using hst.symm
    subst this
    rfl
  | some g =>
    rw [hlast] at hst
    simp only [Option.some.injEq] at hst
    by_contra habs
    rw [Bool.not_eq_false] at habs
    obtain ⟨pre, last, hsh, _, hpre, _, _, _⟩ :=
      itemEvents_shape api fuel tgt e.index urls[e.index]
    rw [hsh] at hfull
    have hprefix_t : t.filter (fun x => x.index == e.index) <+: pre ++ [last] :=
      List.IsPrefix.trans (List.prefix_append _ _) hfull
    have hgterm : isTerminalItem g.status = true := by
      rw [hst]
      exact habs
    have hfiltfull : t.filter (fun x => x.index == e.index) = pre ++ [last] :=
      prefix_terminal_full _ pre last hprefix_t hpre g hlast hgterm
    rw [hfiltfull] at hfull
    have hlenabs := hfull.length_le
    simp at hlenabs

/-- Invariant of the registry fold over any engine-consistent partial trace:
the stored `completedItems` is always the recount over the current items,
and a Complete status entails a full count. -/
theorem trace_invariant
    (api : DriveApi) (fuel : Nat) (tgt jobId : String) (urls : List String)
    (folderId : String) (createdAt : Int) (tr : List Ev) :
    (∀ e ∈ tr, e.index < urls.length) →
    (∀ i (hi : i < urls.length),
      (tr.filter (fun e => e.index == i)) <+: itemEvents api fuel tgt i urls[i]) →
    (applyTrace (mkJob jobId urls folderId createdAt) tr).completedItems
      = countCompleted (applyTrace (mkJob jobId urls folderId createdAt) tr).items
    ∧ ((applyTrace (mkJob jobId urls folderId createdAt) tr).status
        = JobStatus.complete →
      countCompleted (applyTrace (mkJob jobId urls folderId createdAt) tr).items
        = urls.length) := by
  induction tr using List.reverseRecOn with
  | nil =>
    intro _ _
    constructor
    · show (mkJob jobId urls folderId createdAt).completedItems
        = countCompleted (mkJob jobId urls folderId createdAt).items
      rw [mkJob_countCompleted]
      rfl
    · intro h
      have hst : (mkJob jobId urls folderId createdAt).status
          = JobStatus.complete := h
      exact absurd hst (by simp [mkJob])
  | append_singleton t e ih =>
    intro h1 h2
    have he : e.index < urls.length := h1 e (by simp)
    have h1t : ∀ x ∈ t, x.index < urls.length := fun x hx =>
      h1 x (by simp [hx])
    have h2t : ∀ i (hi : i < urls.length),
        (t.filter (fun x => x.index == i)) <+: itemEvents api fuel tgt i urls[i] := by
      intro i hi
      refine List.IsPrefix.trans ?_ (h2 i hi)
      rw [List.filter_append]
      exact List.prefix_append _ _
    obtain ⟨ihK, ihS⟩ := ih h1t h2t
    have hnt := addressed_item_not_terminal api fuel tgt jobId urls folderId
      createdAt t e he h1t (h2 e.index he)
    have hstep : applyTrace (mkJob jobId urls folderId createdAt) (t ++ [e])
        = applyItemUpdate
            (applyTrace (mkJob jobId urls folderId createdAt) t) e := by
      unfold applyTrace
      rw [List.foldl_append]
      rfl
    have hJlen : (applyTrace (mkJob jobId urls folderId createdAt) t).items.length
        = urls.length := by
      rw [applyTrace_items_length, mkJob_items_length]
    have hJtot : (applyTrace (mkJob jobId urls folderId createdAt) t).totalItems
        = urls.length := by
      rw [applyTrace_totalItems]
      simp [mkJob]
    have he' : e.index
        < (applyTrace (mkJob jobId urls folderId createdAt) t).items.length := by
      rw [hJlen]
      exact he
    have hsome : (applyTrace (mkJob jobId urls folderId createdAt) t).items[e.index]?
        = some ((applyTrace (mkJob jobId urls folderId createdAt) t).items[e.index]) :=
      List.getElem?_eq_getElem he'
    have hold : isTerminalItem
        ((applyTrace (mkJob jobId urls folderId createdAt) t).items[e.index]).status
        = false := by
      apply hnt
      unfold statusAt
      rw [hsome]
      rfl
    rw [hstep]
    cases hterm : isTerminalItem e.status with
    | true =>
      constructor
      · rw [← hstep]
        apply applyTrace_concat_terminal
        · rw [mkJob_items_length]
          exact he
        · exact hterm
      · unfold applyItemUpdate
        rw [dif_pos he', if_pos hterm]
        simp only
        intro hcs
        by_cases hcc : countCompleted
            ((applyTrace (mkJob jobId urls folderId createdAt) t).items.set e.index
              { (applyTrace (mkJob jobId urls folderId createdAt) t).items[e.index] with
                status := e.status, progress := e.progress, message := e.message })
            = (applyTrace (mkJob jobId urls folderId createdAt) t).totalItems
        · rw [hcc, hJtot]
        · rw [if_neg hcc] at hcs
          have hfullJ := ihS hcs
          have hallterm := (countCompleted_eq_length_iff _).mp
            (by rw [hJlen]; exact hfullJ)
          have hmem := List.getElem?_mem hsome
          have := hallterm _ hmem
          rw [hold] at this
          cases this
    | false =>
      unfold applyItemUpdate
      rw [dif_pos he', if_neg (by rw [hterm]; exact Bool.false_ne_true)]
      simp only
      have hcount : countCompleted
          ((applyTrace (mkJob jobId urls folderId createdAt) t).items.set e.index
            { (applyTrace (mkJob jobId urls folderId createdAt) t).items[e.index] with
              status := e.status, progress := e.progress, message := e.message })
          = countCompleted (applyTrace (mkJob jobId urls folderId createdAt) t).items := by
        apply countCompleted_set _ e.index _ _ hsome
        show isTerminalItem _ = isTerminalItem e.status
        rw [hold, hterm]
      constructor
      · rw [hcount]
        exact ihK
      · intro hcs
        rw [hcount]
        exact ihS hcs

/-- Claim C1: for a full engine run (a trace that interleaves, per item, the
exact event sequence the engine emits, each ending in its terminal event),
the job marked complete by `processJob` satisfies: the status is Complete,
`completedItems` equals `totalItems`, and every item is terminal (Success
or Error) — and moreover at any earlier point of the run at which the job's
status already reports Complete, `completedItems` equals `totalItems` and no
item is Pending or Processing. -/
theorem job_complete_all_items_terminal :
    ∀ (api : DriveApi) (fuel : Nat) (tgt jobId : String) (urls : List String)
      (folderId : String) (createdAt : Int) (tr : List Ev),
      (∀ e ∈ tr, e.index < urls.length) →
      (∀ i (hi : i < urls.length),
        tr.filter (fun e => e.index == i) = itemEvents api fuel tgt i urls[i]) →
      ((finishJob (applyTrace (mkJob jobId urls folderId createdAt) tr)).status
          = JobStatus.complete
        ∧ (finishJob (applyTrace (mkJob jobId urls folderId createdAt) tr)).completedItems
          = (finishJob (applyTrace (mkJob jobId urls folderId createdAt) tr)).totalItems
        ∧ ∀ it ∈ (finishJob (applyTrace (mkJob jobId urls folderId createdAt) tr)).items,
            isTerminalItem it.status = true)
      ∧ (∀ t1, t1 <+: tr →
          (applyTrace (mkJob jobId urls folderId createdAt) t1).status
            = JobStatus.complete →
          (applyTrace (mkJob jobId urls folderId createdAt) t1).completedItems
            = (applyTrace (mkJob jobId urls folderId createdAt) t1).totalItems
          ∧ ∀ it ∈ (applyTrace (mkJob jobId urls folderId createdAt) t1).items,
              isTerminalItem it.status = true) := by
  intro api fuel tgt jobId urls folderId createdAt tr h1 h2
  have hallterm : ∀ it ∈ (applyTrace (mkJob jobId urls folderId createdAt) tr).items,
      isTerminalItem it.status = true := by
    intro it hmem
    obtain ⟨i, hi, hit⟩ := List.mem_iff_getElem.mp hmem
    have hi' : i < urls.length := by
      rw [applyTrace_items_length, mkJob_items_length] at hi
      exact hi
    have hst : statusAt (applyTrace (mkJob jobId urls folderId createdAt) tr).items i
        = some it.status := by
      unfold statusAt
      rw [List.getElem?_eq_getElem hi]
      simp [hit]
    rw [applyTrace_statusAt tr _ i (by rw [mkJob_items_length]; exact hi')
      (fun x hx => by rw [mkJob_items_length]; exact h1 x hx)] at hst
    rw [h2 i hi'] at hst
    obtain ⟨pre, last, hsh, hterm2, _, _, _, _⟩ :=
      itemEvents_shape api fuel tgt i urls[i]
    rw [hsh, List.getLast?_concat] at hst
    simp only [Option.some.injEq] at hst
    rcases hterm2 with h | h <;> rw [← hst, h] <;> rfl
  obtain ⟨K, S⟩ := trace_invariant api fuel tgt jobId urls folderId createdAt tr
    h1 (fun i hi => by rw [h2 i hi])
  have hcountfull : countCompleted
      (applyTrace (mkJob jobId urls folderId createdAt) tr).items = urls.length := by
    rw [(countCompleted_eq_length_iff _).mpr hallterm,
      applyTrace_items_length, mkJob_items_length]
  constructor
  · refine ⟨rfl, ?_, hallterm⟩
    show (applyTrace (mkJob jobId urls folderId createdAt) tr).completedItems
      = (applyTrace (mkJob jobId urls folderId createdAt) tr).totalItems
    rw [K, hcountfull, applyTrace_totalItems]
    simp [mkJob]
  · intro t1 hp hcs
    have hc1 : ∀ e ∈ t1, e.index < urls.length := fun x hx =>
      h1 x (hp.sublist.mem hx)
    have hc2 : ∀ i (hi : i < urls.length),
        (t1.filter (fun e => e.index == i)) <+: itemEvents api fuel tgt i urls[i] := by
      intro i hi
      rw [← h2 i hi]
      exact hp.filter _
    obtain ⟨K1, S1⟩ := trace_invariant api fuel tgt jobId urls folderId createdAt
      t1 hc1 hc2
    have hcount := S1 hcs
    constructor
    · rw [K1, hcount, applyTrace_totalItems]
      simp [mkJob]
    · exact (countCompleted_eq_length_iff _).mp
        (by rw [applyTrace_items_length, mkJob_items_length]; exact hcount)

/-- Concrete instance of `job_complete_all_items_terminal`: a one-item batch
whose single (invalid-URL) item ends in its Error event. -/
theorem job_complete_all_items_terminal_witness :
    (finishJob (applyTrace (mkJob "j" ["u"] "t" 0)
        [⟨0, .error, 0, "Error: Invalid Google Drive URL"⟩])).status
      = JobStatus.complete
    ∧ (finishJob (applyTrace (mkJob "j" ["u"] "t" 0)
        [⟨0, .error, 0, "Error: Invalid Google Drive URL"⟩])).completedItems
      = (finishJob (applyTrace (mkJob "j" ["u"] "t" 0)
        [⟨0, .error, 0, "Error: Invalid Google Drive URL"⟩])).totalItems
    ∧ ∀ it ∈ (finishJob (applyTrace (mkJob "j" ["u"] "t" 0)
        [⟨0, .error, 0, "Error: Invalid Google Drive URL"⟩])).items,
        isTerminalItem it.status = true :=
  (job_complete_all_items_terminal apiAllOk 0 "t" "j" ["u"] "t" 0
    [⟨0, .error, 0, "Error: Invalid Google Drive URL"⟩]
    (by decide) (by decide)).1
